import Mathlib

/-!
# Input manager: handler registry, dispatch passes and key-state filter

A shallow embedding of `src/input_manager.cpp` and `src/input_manager.hpp`
(namespace `sgui`; `src/glfwim/input_manager.hpp` declares the same
`backupContainer` / `restoreContainer` pair).

* A handler is a callable with an identity and a body.  The body tells, for the
  arguments of one invocation, which calls the handler makes on the input
  manager; the calls embedded here are the `register…Handler` member functions.
  A handler that makes the backend deliver an event while it runs starts a
  dispatch from inside the pass; that dispatch is embedded as the callback run on
  the state in the middle of the outer pass (`midPass`).
* A `std::function` object either holds a target or has been moved from
  (`std::make_move_iterator` in `restoreContainer`).  The state of a moved-from
  `std::function` is *valid but unspecified*; invoking one is therefore not
  given a result by this development (`none`).
* A `double` value is carried as the rational it denotes.  Every arithmetic
  operation the source makes on doubles is followed by `roundToDouble` (IEEE 754
  binary64, round to nearest, ties to even).  Infinities and NaN are not
  represented: `glfwGetCursorPos` and `glfwGetTime` return finite values, and a
  product that exceeds the largest double is outside this embedding.
* The path-drop wrappers, the key aliases and the handles of
  `src/glfwim/input_manager.hpp` are embedded in the namespace `glfwim`.
* An access `keyStates[i]` outside `0 ≤ i < keyStates.size()` is undefined
  behaviour and is given no result (`none`).
-/

namespace sgui

/-! ## Constants of the windowing backend (GLFW/glfw3.h) -/

/-- Value of the backend constant: the action code of a key release (equal to `Action::Release`). -/
def GLFW_RELEASE : Int := 0

/-- Value of the backend constant: the action code of a key press (equal to `Action::Press`). -/
def GLFW_PRESS : Int := 1

/-- Value of the backend constant: the action code of a key repeat (equal to `Action::Repeat`). -/
def GLFW_REPEAT : Int := 2

/-- Value of the backend constant: the largest key code; `initialize` sizes `keyStates` with it. -/
def GLFW_KEY_LAST : Nat := 348

/-! ## Arithmetic on `double` -/

/-- The number of binary digits of `n` minus one, for `n ≥ 1` (`fuel ≥ n` suffices). -/
def log2Floor : Nat → Nat → Nat
  | 0, _ => 0
  | fuel + 1, n => if n < 2 then 0 else log2Floor fuel (n / 2) + 1

/-- The exponent of the binade of a rational `q ≠ 0`: the integer `e` with
`2 ^ e ≤ |q| < 2 ^ (e + 1)`. -/
def binade (q : ℚ) : Int :=
  let n := q.num.natAbs
  let d := q.den
  let e : Int := (log2Floor n n : Int) - (log2Floor d d : Int)
  if e ≥ 0 then (if 2 ^ e.toNat * d ≤ n then e else e - 1)
  else (if d ≤ n * 2 ^ (-e).toNat then e else e - 1)

/-- The `double` an arithmetic operation returns for the exact result `q`: `q` rounded
to 53 significant binary digits, and to a multiple of `2 ^ (-1074)` below the normal
range, to the nearest such value and to the one with an even last digit when two
are equally near. -/
def roundToDouble (q : ℚ) : ℚ :=
  if q = 0 then 0
  else
    let ulp : Int := max (binade q - 52) (-1074)
    let scaled : ℚ := q / (2 : ℚ) ^ ulp
    let f : Int := ⌊scaled⌋
    let r : ℚ := scaled - f
    let n : Int :=
      if r < 1 / 2 then f
      else if 1 / 2 < r then f + 1
      else if f % 2 = 0 then f else f + 1
    (n : ℚ) * (2 : ℚ) ^ ulp

/-! ## Data model -/

/-- Movement of the cursor relative to the window, `enum class CursorMovement`. -/
inductive CursorMovement where
  | Leave
  | Enter
  deriving DecidableEq, Repr

/-- Names one of the seven `std::vector<std::function<…>>` members of `InputManager`
(`input_manager.hpp` lines 191-197). -/
inductive Category where
  | Key
  | Utf8Key
  | MouseButton
  | MouseScroll
  | CursorMovement
  | CursorPosition
  | WindowResize
  deriving DecidableEq, Repr

/-- Arguments of one handler invocation, one constructor per handler signature. -/
inductive Args where
  | key (scancode modifier action : Int)
  | utf8Key (utf8code : String) (modifier action : Int)
  | mouseButton (mouseButton modifier action : Int)
  | mouseScroll (x y : ℚ)
  | cursorMovement (movement : CursorMovement)
  | cursorPosition (x y : ℚ)
  | windowResize (x y : Int)
  | cursorHold (x y : ℚ)
  deriving DecidableEq, Repr

mutual
/-- A callable target: an identity and, for the arguments of an invocation, the
calls it makes on the input manager while it runs. -/
inductive Handler where
  | mk (id : Nat) (body : Args → List Call)
/-- A call a running handler makes on the input manager: one of the registration
functions.  (A dispatch started from inside a handler is not a call on the input
manager; see `midPass`.) -/
inductive Call where
  | register (category : Category) (handler : Handler)
  | registerCursorHoldHandler (triggerTimeInMs threshold : ℚ) (handler : Handler)
end

/-- Identity of a handler. -/
def Handler.id : Handler → Nat
  | .mk i _ => i

/-- Calls a handler makes when invoked with the given arguments. -/
def Handler.body : Handler → Args → List Call
  | .mk _ b => b

/-- A `std::function` object: it holds a target, or it was moved from. -/
inductive StdFunction where
  | target (h : Handler)
  | movedFrom

/-- State a `std::function` is left in when its value is moved out of it. -/
def StdFunction.moveOut (_ : StdFunction) : StdFunction := StdFunction.movedFrom

/-- Record of `InputManager::CursorHoldData`. -/
structure CursorHoldData where
  handler : StdFunction
  x : ℚ
  y : ℚ
  threshold2 : ℚ
  timeToTrigger : ℚ
  startTime : ℚ

/-- One invocation of a handler, as observed from outside. -/
structure Invocation where
  handler : Handler
  args : Args

/-- Data members of `class InputManager` (`input_manager.hpp` lines 191-199). -/
structure InputManager where
  keyHandlers : List StdFunction
  utf8KeyHandlers : List StdFunction
  mouseButtonHandlers : List StdFunction
  mouseScrollHandlers : List StdFunction
  cursorMovementHandlers : List StdFunction
  cursorPositionHandlers : List StdFunction
  windowResizeHandlers : List StdFunction
  cursorHoldHandlers : List CursorHoldData
  keyStates : List Bool

/-- The vector of a category. -/
def InputManager.handlers (m : InputManager) : Category → List StdFunction
  | .Key => m.keyHandlers
  | .Utf8Key => m.utf8KeyHandlers
  | .MouseButton => m.mouseButtonHandlers
  | .MouseScroll => m.mouseScrollHandlers
  | .CursorMovement => m.cursorMovementHandlers
  | .CursorPosition => m.cursorPositionHandlers
  | .WindowResize => m.windowResizeHandlers

/-- Assignment to the vector of a category. -/
def InputManager.setHandlers (m : InputManager) (c : Category) (l : List StdFunction) :
    InputManager :=
  match c with
  | .Key => { m with keyHandlers := l }
  | .Utf8Key => { m with utf8KeyHandlers := l }
  | .MouseButton => { m with mouseButtonHandlers := l }
  | .MouseScroll => { m with mouseScrollHandlers := l }
  | .CursorMovement => { m with cursorMovementHandlers := l }
  | .CursorPosition => { m with cursorPositionHandlers := l }
  | .WindowResize => { m with windowResizeHandlers := l }

/-- State after construction and `initialize`: no handler, every key released
(`keyStates.resize(GLFW_KEY_LAST, 0)`, `input_manager.cpp` line 6). -/
def InputManager.initial : InputManager :=
  { keyHandlers := [], utf8KeyHandlers := [], mouseButtonHandlers := [],
    mouseScrollHandlers := [], cursorMovementHandlers := [], cursorPositionHandlers := [],
    windowResizeHandlers := [], cursorHoldHandlers := [],
    keyStates := List.replicate GLFW_KEY_LAST false }

/-! ## Registration (`input_manager.cpp` lines 142-178) -/

/-- The plain `register…Handler` functions: `push_back` on the category's vector. -/
def InputManager.registerHandler (m : InputManager) (c : Category) (h : Handler) : InputManager :=
  m.setHandlers c (m.handlers c ++ [StdFunction.target h])

/-- Embedding of `registerCursorHoldHandler`: a record with the squared radius (the
`double` product `threshold * threshold`), the origin as anchor and the sentinel
start time `-1` is appended. -/
def InputManager.registerCursorHoldHandler (m : InputManager) (triggerTimeInMs threshold : ℚ)
    (h : Handler) : InputManager :=
  { m with cursorHoldHandlers := m.cursorHoldHandlers ++
      [{ handler := StdFunction.target h, threshold2 := roundToDouble (threshold * threshold),
         timeToTrigger := triggerTimeInMs, x := 0, y := 0, startTime := -1 }] }

/-- Effect of one call of a running handler on the input manager. -/
def applyCall (m : InputManager) : Call → InputManager
  | .register c h => m.registerHandler c h
  | .registerCursorHoldHandler t r h => m.registerCursorHoldHandler t r h

/-- Effect of a sequence of calls, in order. -/
def applyCalls (m : InputManager) (calls : List Call) : InputManager :=
  calls.foldl applyCall m

/-! ## Snapshot and restore (`input_manager.hpp` lines 170-185) -/

/-- Embedding of `backupContainer`: returns `(ret, container)`, the returned vector
and the argument vector after the call (moved from, then cleared). -/
def backupContainer {α : Type} (container : List α) : List α × List α :=
  (container, [])

/-- Embedding of `restoreContainer(container, backup)`: returns the two vectors after
the call, `(container, backup)`.  The vectors are swapped; then, when `backup` is
not empty, its elements are move-inserted at the end of `container`, which
leaves every element of `backup` moved from. -/
def restoreContainer {α : Type} (moveOut : α → α) (container backup : List α) :
    List α × List α :=
  let container1 := backup
  let backup1 := container
  if backup1.isEmpty then (container1, backup1)
  else (container1 ++ backup1, backup1.map moveOut)

/-! ## Dispatch loops (`input_manager.cpp` lines 11-110) -/

/-- The loop `for (auto& handler : temp) handler(args);` run on the manager state `m`.
Returns the invocations in order and the state after the loop; no result when a
moved-from `std::function` is invoked. -/
def invokeAll (a : Args) : List StdFunction → InputManager →
    Option (List Invocation × InputManager)
  | [], m => some ([], m)
  | StdFunction.movedFrom :: _, _ => none
  | StdFunction.target h :: rest, m =>
    match invokeAll a rest (applyCalls m (h.body a)) with
    | none => none
    | some (tr, m1) => some ({ handler := h, args := a } :: tr, m1)

/-- One dispatch pass of a category: snapshot the vector, run the loop, then
`restoreContainer(tempHandlers, inputManager.<vector>)`; the local `tempHandlers`
is destroyed when the callback returns. -/
def dispatch (c : Category) (a : Args) (m : InputManager) :
    Option (List Invocation × InputManager) :=
  let (tempHandlers, live) := backupContainer (m.handlers c)
  match invokeAll a tempHandlers (m.setHandlers c live) with
  | none => none
  | some (tr, m1) =>
    let (_, live1) := restoreContainer StdFunction.moveOut tempHandlers (m1.handlers c)
    some (tr, m1.setHandlers c live1)

/-- The mouse-button callback (`input_manager.cpp` lines 42-54). -/
def mouseButtonCallback (isMouseCaptured : Bool) (button action mods : Int)
    (m : InputManager) : Option (List Invocation × InputManager) :=
  if isMouseCaptured then some ([], m)
  else dispatch Category.MouseButton (Args.mouseButton button mods action) m

/-- The scroll callback (`input_manager.cpp` lines 56-68). -/
def scrollCallback (isMouseCaptured : Bool) (x y : ℚ)
    (m : InputManager) : Option (List Invocation × InputManager) :=
  if isMouseCaptured then some ([], m)
  else dispatch Category.MouseScroll (Args.mouseScroll x y) m

/-- The cursor-enter callback (`input_manager.cpp` lines 70-83). -/
def cursorEnterCallback (isMouseCaptured : Bool) (entered : Int)
    (m : InputManager) : Option (List Invocation × InputManager) :=
  let movement := if entered = 0 then CursorMovement.Leave else CursorMovement.Enter
  if isMouseCaptured then some ([], m)
  else dispatch Category.CursorMovement (Args.cursorMovement movement) m

/-- The cursor-position callback (`input_manager.cpp` lines 85-97). -/
def cursorPosCallback (isMouseCaptured : Bool) (x y : ℚ)
    (m : InputManager) : Option (List Invocation × InputManager) :=
  if isMouseCaptured then some ([], m)
  else dispatch Category.CursorPosition (Args.cursorPosition x y) m

/-- The framebuffer-size callback (`input_manager.cpp` lines 99-109). -/
def framebufferSizeCallback (x y : Int)
    (m : InputManager) : Option (List Invocation × InputManager) :=
  dispatch Category.WindowResize (Args.windowResize x y) m

/-! ## Key callback (`input_manager.cpp` lines 11-40) -/

/-- The read `keyStates[i]`: defined for `0 ≤ i < keyStates.size()` only. -/
def keyStateAt (keyStates : List Bool) (i : Int) : Option Bool :=
  if 0 ≤ i then keyStates[i.toNat]? else none

/-- Lines 14-20 of the key callback on the key-state alone.  Returns whether the
callback goes on to the dispatch loops (`false`: it returned early) and the
key-state afterwards; no result when `keyStates` is accessed out of range. -/
def keyFilter (isKeyboardCaptured : Bool) (keyStates : List Bool) (key action : Int) :
    Option (Bool × List Bool) :=
  let line14 : Option Bool :=
    if isKeyboardCaptured then
      (keyStateAt keyStates (key - 1)).map fun s => !(s && action == GLFW_RELEASE)
    else some false
  match line14 with
  | none => none
  | some true => some (false, keyStates)
  | some false =>
    if key ≥ 1 then
      match keyStateAt keyStates (key - 1) with
      | none => none
      | some s =>
        if !s && action == GLFW_RELEASE then some (false, keyStates)
        else if action == GLFW_PRESS then some (true, keyStates.set (key - 1).toNat true)
        else if action == GLFW_RELEASE then some (true, keyStates.set (key - 1).toNat false)
        else some (true, keyStates)
    else some (true, keyStates)

/-- Lines 22-39 of the key callback: both vectors are snapshotted, the key handlers
run, then (when the UTF-8 snapshot is not empty and the key name resolves) the
UTF-8 handlers, and both vectors are restored. -/
def keyDispatch (glfwGetKeyName : Int → Int → Option String) (key scancode action mods : Int)
    (m : InputManager) : Option (List Invocation × InputManager) :=
  let (tempKeyHandlers, liveKey) := backupContainer m.keyHandlers
  let (tempUtf8KeyHandlers, liveUtf8) := backupContainer m.utf8KeyHandlers
  let m0 := { m with keyHandlers := liveKey, utf8KeyHandlers := liveUtf8 }
  match invokeAll (Args.key scancode mods action) tempKeyHandlers m0 with
  | none => none
  | some (tr1, m1) =>
    let utf8Loop : Option (List Invocation × InputManager) :=
      if tempUtf8KeyHandlers.isEmpty then some ([], m1)
      else
        match glfwGetKeyName key scancode with
        | none => some ([], m1)
        | some utf8key => invokeAll (Args.utf8Key utf8key mods action) tempUtf8KeyHandlers m1
    match utf8Loop with
    | none => none
    | some (tr2, m2) =>
      let (_, liveKey1) := restoreContainer StdFunction.moveOut tempKeyHandlers m2.keyHandlers
      let (_, liveUtf81) :=
        restoreContainer StdFunction.moveOut tempUtf8KeyHandlers m2.utf8KeyHandlers
      some (tr1 ++ tr2, { m2 with keyHandlers := liveKey1, utf8KeyHandlers := liveUtf81 })

/-- The key callback (`input_manager.cpp` lines 11-40). -/
def keyCallback (isKeyboardCaptured : Bool) (glfwGetKeyName : Int → Int → Option String)
    (key scancode action mods : Int) (m : InputManager) :
    Option (List Invocation × InputManager) :=
  match keyFilter isKeyboardCaptured m.keyStates key action with
  | none => none
  | some (false, _) => some ([], m)
  | some (true, keyStates1) =>
    keyDispatch glfwGetKeyName key scancode action mods { m with keyStates := keyStates1 }

/-! ## Sequences of key events -/

/-- One call of the key callback by the backend, together with the answer
`isKeyboardCaptured()` gives during that call. -/
structure KeyEvent where
  isKeyboardCaptured : Bool
  key : Int
  scancode : Int
  action : Int
  mods : Int
  deriving DecidableEq, Repr

/-- The events of a sequence for which the key callback reaches its dispatch loops,
in order, when the callback is called for every event in turn starting from
the given key-state (the handlers have no access to `keyStates`).  The run ends
at an event whose call accesses `keyStates` out of range. -/
def dispatchedKeyEvents (keyStates : List Bool) : List KeyEvent → List KeyEvent
  | [] => []
  | e :: es =>
    match keyFilter e.isKeyboardCaptured keyStates e.key e.action with
    | none => []
    | some (false, keyStates1) => dispatchedKeyEvents keyStates1 es
    | some (true, keyStates1) => e :: dispatchedKeyEvents keyStates1 es

/-- The action codes of the dispatched events of one key, in order. -/
def dispatchedActions (K : Int) (keyStates : List Bool) (events : List KeyEvent) : List Int :=
  ((dispatchedKeyEvents keyStates events).filter (fun e => e.key = K)).map (fun e => e.action)

/-- The invocations the two loops of the key callback make when every function of
the two vectors holds a target: the key handlers `hs` with the scancode, then, when
the key name resolves, the UTF-8 handlers `us` with the name. -/
def keyInvocations (hs us : List Handler) (name : Option String) (scancode mods action : Int) :
    List Invocation :=
  hs.map (fun h => { handler := h, args := Args.key scancode mods action }) ++
    match name with
    | none => []
    | some utf8key => us.map (fun h => { handler := h, args := Args.utf8Key utf8key mods action })

/-! ## Concrete handlers and states used at explicit inputs -/

/-- A handler that makes no call on the input manager. -/
def quietHandler : Handler := Handler.mk 1 fun _ => []

/-- A handler that registers `quietHandler` for the given category on every invocation. -/
def registeringHandler (c : Category) : Handler :=
  Handler.mk 2 fun _ => [Call.register c quietHandler]

/-- The initial state after one registration for a category. -/
def oneHandler (c : Category) (h : Handler) : InputManager :=
  InputManager.initial.registerHandler c h

/-- Key 65 is pressed, released while the keyboard is captured, and released again. -/
def pressReleaseRelease : List KeyEvent :=
  [{ isKeyboardCaptured := false, key := 65, scancode := 38, action := GLFW_PRESS, mods := 0 },
   { isKeyboardCaptured := true, key := 65, scancode := 38, action := GLFW_RELEASE, mods := 0 },
   { isKeyboardCaptured := false, key := 65, scancode := 38, action := GLFW_RELEASE, mods := 0 }]

/-- A key-name lookup that resolves every key to the same name. -/
def nameA : Int → Int → Option String := fun _ _ => some "a"

/-! ## Cursor hold (`input_manager.cpp` lines 112-140) -/

/-- State a `CursorHoldData` is left in when its value is moved out of it: the
`std::function` member is moved from, the `double` members are copied. -/
def CursorHoldData.moveOut (it : CursorHoldData) : CursorHoldData :=
  { it with handler := it.handler.moveOut }

/-- Lines 127-128 of `elapsedTime`: the `double` `dv2` computed for the record `it` and
the cursor position `(x, y)`; each of the two differences, the two products and
the sum is rounded (no fused multiply-add). -/
def dv2 (x y : ℚ) (it : CursorHoldData) : ℚ :=
  let dx := roundToDouble (x - it.x)
  let dy := roundToDouble (y - it.y)
  roundToDouble (roundToDouble (dx * dx) + roundToDouble (dy * dy))

/-- The body of the loop of `elapsedTime` on one record, without the call of line
131: the record afterwards and whether line 131 calls `it.handler`.  `now` is
`glfwGetTime() * 1000.0`, `(x, y)` the cursor position. -/
def holdStep (x y now : ℚ) (it : CursorHoldData) : CursorHoldData × Bool :=
  if it.startTime < 0 then
    ({ it with startTime := now, x := x, y := y }, false)
  else
    if dv2 x y it ≤ it.threshold2 then
      let elapsedTime := roundToDouble (now - it.startTime)
      (it, decide (elapsedTime ≥ it.timeToTrigger))
    else
      ({ it with startTime := now, x := x, y := y }, false)

/-- The loop `for (auto& it : tempHandlers)` of `elapsedTime`.  Returns the
invocations, the records of `tempHandlers` after the loop and the state; no result
when a moved-from `std::function` is called. -/
def holdLoop (x y now : ℚ) : List CursorHoldData → InputManager →
    Option (List Invocation × List CursorHoldData × InputManager)
  | [], m => some ([], [], m)
  | it :: rest, m =>
    match holdStep x y now it with
    | (it1, false) =>
      match holdLoop x y now rest m with
      | none => none
      | some (tr, rest1, m1) => some (tr, it1 :: rest1, m1)
    | (it1, true) =>
      match it.handler with
      | StdFunction.movedFrom => none
      | StdFunction.target h =>
        match holdLoop x y now rest (applyCalls m (h.body (Args.cursorHold it.x it.y))) with
        | none => none
        | some (tr, rest1, m1) =>
          some ({ handler := h, args := Args.cursorHold it.x it.y } :: tr, it1 :: rest1, m1)

/-- Embedding of `InputManager::elapsedTime` (one tick).  `(x, y)` is what
`glfwGetCursorPos` returns and `glfwGetTime` what `glfwGetTime()` returns, in
seconds, during the tick; the argument `dt` of the source is not used by it. -/
def elapsedTime (isMouseCaptured : Bool) (x y glfwGetTime : ℚ) (m : InputManager) :
    Option (List Invocation × InputManager) :=
  if isMouseCaptured then some ([], m)
  else
    let (tempHandlers, live) := backupContainer m.cursorHoldHandlers
    match holdLoop x y (roundToDouble (glfwGetTime * 1000)) tempHandlers
        { m with cursorHoldHandlers := live } with
    | none => none
    | some (tr, tempHandlers1, m1) =>
      let (_, live1) :=
        restoreContainer CursorHoldData.moveOut tempHandlers1 m1.cursorHoldHandlers
      some (tr, { m1 with cursorHoldHandlers := live1 })

/-- The invocations one tick makes on records whose firing handlers hold a target:
for every record that line 131 fires, its handler with the anchor of the record. -/
def holdInvocations (x y now : ℚ) : List CursorHoldData → List Invocation
  | [] => []
  | it :: rest =>
    match (holdStep x y now it).2, it.handler with
    | true, StdFunction.target h =>
      { handler := h, args := Args.cursorHold it.x it.y } :: holdInvocations x y now rest
    | _, _ => holdInvocations x y now rest

/-- The records of a tick fire only handlers that hold a target. -/
def FiringCallable (x y now : ℚ) (its : List CursorHoldData) : Prop :=
  ∀ it ∈ its, (holdStep x y now it).2 = true → ∃ h, it.handler = StdFunction.target h

/-- Every hold record of the state either has the sentinel as start time (it was not
yet seen by a tick) or has its handler moved from. -/
def HoldsUnfired (m : InputManager) : Prop :=
  ∀ it ∈ m.cursorHoldHandlers, it.startTime < 0 ∨ it.handler = StdFunction.movedFrom

/-- The initial state after `registerCursorHoldHandler(200, 5, quietHandler)`. -/
def holdRegistered : InputManager :=
  InputManager.initial.registerCursorHoldHandler 200 5 quietHandler

/-- A record of radius 5 and duration 200 ms that is anchored at the origin since
time 0 and holds the target `quietHandler`. -/
def anchoredAtOrigin : CursorHoldData :=
  { handler := StdFunction.target quietHandler, x := 0, y := 0, threshold2 := 25,
    timeToTrigger := 200, startTime := 0 }

/-- The state with the only hold record anchored at the origin since time 0 and
its handler moved from. -/
def afterFirstTick : InputManager :=
  { InputManager.initial with cursorHoldHandlers := [anchoredAtOrigin.moveOut] }

/-- A second handler that makes no call on the input manager. -/
def secondHandler : Handler := Handler.mk 3 fun _ => []

/-- The state after `registerCursorHoldHandler(200, 5, quietHandler)` and
`registerCursorHoldHandler(200, 100, secondHandler)`. -/
def twoHoldsRegistered : InputManager :=
  holdRegistered.registerCursorHoldHandler 200 100 secondHandler

/-- A record of radius 100 and duration 200 ms that is anchored at the origin since
time 0 and holds the target `secondHandler`. -/
def wideAnchoredAtOrigin : CursorHoldData :=
  { handler := StdFunction.target secondHandler, x := 0, y := 0, threshold2 := 10000,
    timeToTrigger := 200, startTime := 0 }

/-- The state with two hold records, of radius 5 and of radius 100, both anchored at
the origin since time 0 and both with their handler moved from. -/
def twoHoldsAfterFirstTick : InputManager :=
  { InputManager.initial with
    cursorHoldHandlers := [anchoredAtOrigin.moveOut, wideAnchoredAtOrigin.moveOut] }

/-! ## Dispatch started from inside a handler -/

/-- The handlers a sequence of calls registers for a category, in order. -/
def registeredFor (c : Category) : List Call → List Handler
  | [] => []
  | Call.register c1 h :: rest =>
    if c1 = c then h :: registeredFor c rest else registeredFor c rest
  | Call.registerCursorHoldHandler _ _ _ :: rest => registeredFor c rest

/-- State of the manager inside a dispatch pass of `c` that began in state `m`, at a
moment when the handlers run so far have made the calls `calls`: the vector of `c`
was detached by `backupContainer` and has received the registrations since. -/
def midPass (c : Category) (m : InputManager) (calls : List Call) : InputManager :=
  applyCalls (m.setHandlers c (backupContainer (m.handlers c)).2) calls

end sgui

namespace glfwim

open sgui

/-! ## Path-drop wrappers (`glfwim/input_manager.hpp` lines 209-271)

`std::string` is embedded as `String`; `'.'` is one byte in every encoding of a path
the backend delivers, so positions of `'.'` agree on characters and bytes. -/

/-- Embedding of `std::string::find_last_of` for a one-character set: the index of the
last occurrence of `c`, `none` for `npos`. -/
def find_last_of (c : Char) : List Char → Option Nat
  | [] => none
  | x :: rest =>
    match find_last_of c rest with
    | some i => some (i + 1)
    | none => if x = c then some 0 else none

/-- The local `ext` of both wrappers: `it.substr(found + 1)` when `find_last_of(".")`
finds a position, the empty string otherwise. -/
def extension (it : String) : String :=
  match find_last_of '.' it.data with
  | some found => String.mk (it.data.drop (found + 1))
  | none => ""

/-- Inner loop of the per-path wrapper, `for (auto& fExt : f) if (ext == fExt)
{ h(it); break; }`: the arguments of the calls of `h` it makes. -/
def perPathInner (it ext : String) : List String → List String
  | [] => []
  | fExt :: rest => if ext = fExt then [it] else perPathInner it ext rest

/-- The per-path wrapper (lines 229-244) called with `paths`: the arguments of the
calls of `h`, in order. -/
def perPathCalls (f : List String) : List String → List String
  | [] => []
  | it :: rest =>
    let ext := extension it
    (if f.isEmpty then [it] else perPathInner it ext f) ++ perPathCalls f rest

/-- Inner loop of the batch wrapper, `for (auto& fExt : f) if (ext == fExt)
{ pps.push_back(it); break; }`: the vector `pps` afterwards. -/
def batchInner (pps : List String) (it ext : String) : List String → List String
  | [] => pps
  | fExt :: rest => if ext = fExt then pps ++ [it] else batchInner pps it ext rest

/-- Outer loop of the batch wrapper: the vector `pps` after the paths. -/
def batchLoop (f : List String) (pps : List String) : List String → List String
  | [] => pps
  | it :: rest =>
    let ext := extension it
    batchLoop f (if f.isEmpty then pps ++ [it] else batchInner pps it ext f) rest

/-- The batch wrapper (lines 246-263) called with `paths`: the arguments of the calls
of `h`, in order (one call, `h(pps)`). -/
def batchCalls (f paths : List String) : List (List String) :=
  [batchLoop f [] paths]

/-- Filter accumulation (lines 267-271): every leading `std::string` argument is
pushed on `filters`, in argument order, before the handler is reached. -/
def accumulateFilters (filters : List String) : List String → List String
  | [] => filters
  | head :: tail => accumulateFilters (filters ++ [head]) tail

/-! ## Key aliases (`glfwim/input_manager.hpp` lines 83-125) -/

/-- Results of `getSpaceScanCode()`, `getEnterScanCode()`, `getRightArrowScanCode()`
and `getLeftArrowScanCode()`; their definitions are outside the header and ask
the backend. -/
structure ScanCodes where
  space : Int
  enter : Int
  rightArrow : Int
  leftArrow : Int

/-- The lambda of `registerKeyHandler(int scancode, H handler)` (lines 85-87) on the
arguments of an invocation: the arguments with which it calls `h`, when it does. -/
def scancodeCall (s : Int) : Args → Option (Int × Int)
  | Args.key scancode modifier action => if scancode = s then some (modifier, action) else none
  | _ => none

/-- A `const char*` passed to `registerUtf8KeyHandler`, by what the code reads through
it: the string its buffer holds while the registration runs (the `strcmp` calls of
lines 108-117) and the string its buffer holds when the registered lambda runs
(`strcmp(u, utf8code)` of line 122: the lambda captures the pointer `u`, not the
characters).  For a string literal the two are equal.  A buffer that is no longer
alive when the lambda runs is outside this embedding. -/
structure CharPointer where
  atRegistration : String
  atDispatch : String

/-- The lambda of the last branch of `registerUtf8KeyHandler` (lines 121-123) on the
arguments of an invocation: `!strcmp(u, utf8code)` is equality of the string `u`
points to at that time and the key name of the event. -/
def utf8Call (u : CharPointer) : Args → Option (Int × Int)
  | Args.utf8Key utf8code modifier action =>
    if u.atDispatch = utf8code then some (modifier, action) else none
  | _ => none

/-- A wrapper lambda as a handler: it runs the callback `h`, a callable taking
`(Modifier, Action)`, with the arguments `call` selects, or does nothing. -/
def wrapHandler (id : Nat) (call : Args → Option (Int × Int)) (h : Int → Int → List Call) :
    Handler :=
  Handler.mk id fun a =>
    match call a with
    | some (modifier, action) => h modifier action
    | none => []

/-- Embedding of `registerKeyHandler(int scancode, H handler)` (lines 83-88); the
registration itself is the `push_back` of `registerKeyHandler(std::function)`. -/
def registerKeyHandler (m : InputManager) (id : Nat) (scancode : Int)
    (h : Int → Int → List Call) : InputManager :=
  m.registerHandler Category.Key (wrapHandler id (scancodeCall scancode) h)

/-- Embedding of `registerUtf8KeyHandler(const char* utf8code, H handler)` (lines
106-125). -/
def registerUtf8KeyHandler (codes : ScanCodes) (m : InputManager) (id : Nat)
    (utf8code : CharPointer) (h : Int → Int → List Call) : InputManager :=
  if utf8code.atRegistration = " " then registerKeyHandler m id codes.space h
  else if utf8code.atRegistration = "\n" then registerKeyHandler m id codes.enter h
  else if utf8code.atRegistration = "->" then registerKeyHandler m id codes.rightArrow h
  else if utf8code.atRegistration = "<-" then registerKeyHandler m id codes.leftArrow h
  else m.registerHandler Category.Utf8Key (wrapHandler id (utf8Call utf8code) h)

/-- Scancodes of space, enter, right arrow and left arrow on one backend (X11). -/
def x11ScanCodes : ScanCodes := { space := 65, enter := 36, rightArrow := 114, leftArrow := 113 }

/-- A pointer to a buffer that holds "a" while the registration runs and "b" when an
event is dispatched later. -/
def rewrittenBuffer : CharPointer := { atRegistration := "a", atDispatch := "b" }

/-! ## Key handlers with modifier and action (`glfwim/input_manager.hpp` lines 11-17, 90-102) -/

/-- Value of `Modifier::None`. -/
def Modifier.None : Int := 0

/-- Value of `Modifier::Alt`. -/
def Modifier.Alt : Int := 4

/-- Value of `Modifier::Super`. -/
def Modifier.Super : Int := 8

mutual
/-- A callback held by a `HandlerHolder`: an identity and, for the arguments of an
invocation, the calls it makes on the registry of its own category. -/
inductive Callback where
  | mk (id : Nat) (body : Args → List RegistryCall)
/-- A call of a running callback on the registry of its own category: a registration,
or `enable()` / `disable()` on the handle with the given index. -/
inductive RegistryCall where
  | register (handler : Callback)
  | setEnabled (index : Nat) (enable : Bool)
end

/-- Identity of a callback. -/
def Callback.id : Callback → Nat
  | .mk i _ => i

/-- Calls a callback makes when invoked with the given arguments. -/
def Callback.body : Callback → Args → List RegistryCall
  | .mk _ b => b

/-- The member `T handler` of a `HandlerHolder`, a `std::function`: it holds a callback,
or it was moved from. -/
inductive HeldFunction where
  | target (h : Callback)
  | movedFrom

/-- Embedding of `HandlerHolder<T>` (lines 301-307): the handler and the flag
`enabled`, which the constructor sets to true. -/
structure HandlerHolder where
  handler : HeldFunction
  enabled : Bool

/-- State a `HandlerHolder` is left in when its value is moved out of it (implicit move
constructor): the `std::function` member is moved from, the flag is copied. -/
def HandlerHolder.moveOut (e : HandlerHolder) : HandlerHolder :=
  { e with handler := HeldFunction.movedFrom }

/-- Modelled from the spec: the registration function of a category, whose definition
is not in `src/`.  "Registration appends to the category's list and returns a handle
referencing its final index."  Returns the vector and the index of the handle. -/
def register (live : List HandlerHolder) (h : Callback) : List HandlerHolder × Nat :=
  (live ++ [{ handler := HeldFunction.target h, enabled := true }], live.length)

/-- Modelled from the spec: `CallbackHandler::enable_impl`, whose definition is not in
`src/`.  "`setEnabled` is a direct index write, O(1), side-effect-free beyond the
flag": the write `handlers[index].enabled = enable` on the category's member vector
as it is at the time of the call.  A write at an index the vector does not have is
out of range and is given no result. -/
def setEnabled (live : List HandlerHolder) (index : Nat) (enable : Bool) :
    Option (List HandlerHolder) :=
  match live[index]? with
  | some e => some (live.set index { e with enabled := enable })
  | none => none

end glfwim

namespace sgui

/-! ## Lemmas on registration and on the dispatch loop -/

theorem handlers_setHandlers (m : InputManager) (c : Category) (l : List StdFunction) :
    (m.setHandlers c l).handlers c = l := by
  cases c <;> rfl

theorem keyStates_setHandlers (m : InputManager) (c : Category) (l : List StdFunction) :
    (m.setHandlers c l).keyStates = m.keyStates := by
  cases c <;> rfl

theorem keyStates_applyCall (m : InputManager) (call : Call) :
    (applyCall m call).keyStates = m.keyStates := by
  cases call with
  | register c h => exact keyStates_setHandlers _ _ _
  | registerCursorHoldHandler t r h => rfl

theorem keyStates_applyCalls (calls : List Call) (m : InputManager) :
    (applyCalls m calls).keyStates = m.keyStates := by
  induction calls generalizing m with
  | nil => rfl
  | cons call rest ih =>
    show (applyCalls (applyCall m call) rest).keyStates = m.keyStates
    rw [ih, keyStates_applyCall]

/-- On a vector whose functions all hold a target the loop invokes every one of
them, in order, and the state afterwards is the effect of their calls. -/
theorem invokeAll_targets (a : Args) (hs : List Handler) (m : InputManager) :
    invokeAll a (hs.map StdFunction.target) m =
      some (hs.map (fun h => { handler := h, args := a }),
            applyCalls m (hs.flatMap fun h => h.body a)) := by
  induction hs generalizing m with
  | nil => rfl
  | cons h rest ih =>
    simp only [List.map_cons, invokeAll, ih, List.flatMap_cons, applyCalls, List.foldl_append]

/-- The loop invokes targets of the vector it runs over and nothing else. -/
theorem invokeAll_sub (a : Args) (l : List StdFunction) (m : InputManager)
    (tr : List Invocation) (m1 : InputManager) (h : invokeAll a l m = some (tr, m1)) :
    ∀ inv ∈ tr, StdFunction.target inv.handler ∈ l ∧ inv.args = a := by
  induction l generalizing m tr m1 with
  | nil =>
    simp only [invokeAll, Option.some.injEq, Prod.mk.injEq] at h
    intro inv hinv
    rw [← h.1] at hinv
    cases hinv
  | cons f rest ih =>
    cases f with
    | movedFrom => simp [invokeAll] at h
    | target g =>
      simp only [invokeAll] at h
      cases hrest : invokeAll a rest (applyCalls m (g.body a)) with
      | none => simp [hrest] at h
      | some r =>
        obtain ⟨tr1, m2⟩ := r
        simp only [hrest, Option.some.injEq, Prod.mk.injEq] at h
        intro inv hinv
        rw [← h.1] at hinv
        rcases List.mem_cons.mp hinv with heq | hmem
        · subst heq
          exact ⟨List.mem_cons_self _ _, rfl⟩
        · have := ih _ _ _ hrest inv hmem
          exact ⟨List.mem_cons_of_mem _ this.1, this.2⟩

theorem map_moveOut_targets (hs : List Handler) :
    (hs.map StdFunction.target).map StdFunction.moveOut =
      hs.map (fun _ => StdFunction.movedFrom) := by
  induction hs with
  | nil => rfl
  | cons h rest ih => simp only [List.map_cons, ih, StdFunction.moveOut]

/-- What a dispatch pass over a vector of targets returns: every target invoked once
in order, and the vector left with one moved-from function for each of them. -/
theorem dispatch_targets (c : Category) (a : Args) (m : InputManager) (hs : List Handler)
    (hlist : m.handlers c = hs.map StdFunction.target) :
    ∃ m1, dispatch c a m = some (hs.map (fun h => { handler := h, args := a }), m1) ∧
      m1.handlers c = hs.map (fun _ => StdFunction.movedFrom) ∧
      m1.keyStates = m.keyStates := by
  unfold dispatch backupContainer
  simp only [hlist, invokeAll_targets]
  refine ⟨_, rfl, ?_, ?_⟩
  · rw [handlers_setHandlers]
    cases hs with
    | nil => rfl
    | cons h rest =>
      simp only [restoreContainer, List.map_cons, List.isEmpty_cons, Bool.false_eq_true,
        if_false]
      exact map_moveOut_targets (h :: rest)
  · rw [keyStates_setHandlers, keyStates_applyCalls, keyStates_setHandlers]

/-- The dispatch loops of the key callback on two vectors of targets. -/
theorem keyDispatch_targets (name : Int → Int → Option String) (key sc a mods : Int)
    (m : InputManager) (hs us : List Handler)
    (hk : m.keyHandlers = hs.map StdFunction.target)
    (hu : m.utf8KeyHandlers = us.map StdFunction.target) :
    ∃ m1, keyDispatch name key sc a mods m =
        some (keyInvocations hs us (name key sc) sc mods a, m1) ∧
      m1.keyStates = m.keyStates := by
  unfold keyDispatch backupContainer keyInvocations
  simp only [hk, hu, invokeAll_targets]
  cases us with
  | nil =>
    simp only [List.map_nil, List.isEmpty_nil, if_true]
    cases name key sc <;> exact ⟨_, rfl, by simp only [keyStates_applyCalls]⟩
  | cons u rest =>
    cases hn : name key sc with
    | none =>
      simp only [List.map_cons, List.isEmpty_cons, Bool.false_eq_true, if_false]
      exact ⟨_, rfl, by simp only [keyStates_applyCalls]⟩
    | some utf8key =>
      simp only [List.isEmpty_cons, List.map_cons, Bool.false_eq_true, if_false]
      exact ⟨_, rfl, by simp only [keyStates_applyCalls]⟩

/-! ## Dispatch passes -/

/-- A pass over a vector whose functions all hold a target, as the vector is after
registrations and before the first pass of the category: the pass invokes each of
the handlers `hs` exactly once, in the order of the vector, with the arguments of
the event; the handlers may register further handlers while they run.  Stated for
the pass over one vector, for the mouse-button callback when the mouse is not
captured, and for the loops of the key callback, where the UTF-8 handlers `us`
follow. -/
theorem dispatch_invokes_each_once (c : Category) (a : Args) (m : InputManager)
    (hs : List Handler) (hlist : m.handlers c = hs.map StdFunction.target) :
    (∃ m1, dispatch c a m = some (hs.map (fun h => { handler := h, args := a }), m1)) ∧
    (c = Category.MouseButton → ∀ button action mods : Int,
      ∃ m1, mouseButtonCallback false button action mods m =
        some (hs.map (fun h =>
          { handler := h, args := Args.mouseButton button mods action }), m1)) ∧
    (c = Category.Key → ∀ (name : Int → Int → Option String) (key sc action mods : Int)
      (us : List Handler), m.utf8KeyHandlers = us.map StdFunction.target →
      ∃ m1, keyDispatch name key sc action mods m =
        some (keyInvocations hs us (name key sc) sc mods action, m1)) := by
  refine ⟨?_, ?_, ?_⟩
  · obtain ⟨m1, h1, _⟩ := dispatch_targets c a m hs hlist
    exact ⟨m1, h1⟩
  · intro hc button action mods
    subst hc
    obtain ⟨m1, h1, _⟩ :=
      dispatch_targets Category.MouseButton (Args.mouseButton button mods action) m hs hlist
    exact ⟨m1, by simpa [mouseButtonCallback] using h1⟩
  · intro hc name key sc action mods us hu
    subst hc
    obtain ⟨m1, h1, _⟩ := keyDispatch_targets name key sc action mods m hs us hlist hu
    exact ⟨m1, h1⟩

/-- Example of a first pass: two registered mouse-button handlers, the first of which
registers a third one while it runs, are invoked once each, in registration order. -/
theorem dispatch_invokes_each_once_witness :
    ((oneHandler Category.MouseButton (registeringHandler Category.MouseButton)).registerHandler
        Category.MouseButton quietHandler).handlers Category.MouseButton =
      [registeringHandler Category.MouseButton, quietHandler].map StdFunction.target ∧
    ∃ m1, dispatch Category.MouseButton (Args.mouseButton 0 0 1)
        ((oneHandler Category.MouseButton
          (registeringHandler Category.MouseButton)).registerHandler
            Category.MouseButton quietHandler) =
      some ([{ handler := registeringHandler Category.MouseButton,
               args := Args.mouseButton 0 0 1 },
             { handler := quietHandler, args := Args.mouseButton 0 0 1 }], m1) :=
  ⟨rfl, (dispatch_invokes_each_once Category.MouseButton (Args.mouseButton 0 0 1)
    ((oneHandler Category.MouseButton (registeringHandler Category.MouseButton)).registerHandler
      Category.MouseButton quietHandler)
    [registeringHandler Category.MouseButton, quietHandler] rfl).1⟩

/-- C1 (evaluation at the failing input): `quietHandler` is registered for mouse
buttons and a first mouse-button event is dispatched; then `secondHandler` is
registered and a second event arrives.  When the second pass begins the vector
holds the moved-from function the first pass left and `secondHandler`.  The loop
calls the moved-from function first and has no result: `secondHandler`, which was
in the list when the pass began, is not invoked. -/
theorem handler_registered_after_pass_not_invoked :
    (mouseButtonCallback false 0 GLFW_PRESS 0
        (oneHandler Category.MouseButton quietHandler)).map
      (fun r => (r.1.map (fun inv => inv.handler.id),
        (r.2.registerHandler Category.MouseButton secondHandler).mouseButtonHandlers)) =
      some ([1], [StdFunction.movedFrom, StdFunction.target secondHandler]) ∧
    ((mouseButtonCallback false 0 GLFW_PRESS 0
        (oneHandler Category.MouseButton quietHandler)).bind
      (fun r => mouseButtonCallback false 0 GLFW_RELEASE 0
        (r.2.registerHandler Category.MouseButton secondHandler))).isNone = true ∧
    (∀ (a : Args) (rest : List StdFunction) (m : InputManager),
      invokeAll a (StdFunction.movedFrom :: rest) m = none) :=
  ⟨rfl, rfl, fun _ _ _ => rfl⟩

/-- C2 (evaluation at the failing input): the mouse-button vector holds one handler,
which registers `quietHandler` during the pass.  After the pass the vector holds one
moved-from function: the registered handler is not in it, and it is not the merged
vector (registered handler first, then the original one), which was built in the
local `tempHandlers`. -/
theorem restore_drops_registered_handler :
    (mouseButtonCallback false 0 GLFW_PRESS 0
        (oneHandler Category.MouseButton (registeringHandler Category.MouseButton))).map
      (fun r => r.2.mouseButtonHandlers) = some [StdFunction.movedFrom] ∧
    [StdFunction.movedFrom] ≠
      [StdFunction.target quietHandler,
       StdFunction.target (registeringHandler Category.MouseButton)] ∧
    (restoreContainer StdFunction.moveOut
        [StdFunction.target (registeringHandler Category.MouseButton)]
        [StdFunction.target quietHandler]).1 =
      [StdFunction.target quietHandler,
       StdFunction.target (registeringHandler Category.MouseButton)] := by
  refine ⟨rfl, ?_, rfl⟩
  intro h
  cases h

set_option maxRecDepth 4000 in
/-- C3 (evaluation at the failing input): the key vector holds one handler, which
registers nothing.  After the pass of a key press the vector does not hold that
handler any more: it holds one moved-from function. -/
theorem restore_leaves_moved_from :
    (oneHandler Category.Key quietHandler).keyHandlers = [StdFunction.target quietHandler] ∧
    (keyCallback false (fun _ _ => none) 65 38 GLFW_PRESS 0
        (oneHandler Category.Key quietHandler)).map (fun r => r.2.keyHandlers) =
      some [StdFunction.movedFrom] ∧
    StdFunction.target quietHandler ∉ [StdFunction.movedFrom] := by
  refine ⟨rfl, rfl, ?_⟩
  intro h
  cases h with
  | tail _ h1 => cases h1

/-- The loop of a pass invokes only targets of the vector the pass detached, with
the arguments of the event. -/
theorem dispatch_sub (c : Category) (a : Args) (m : InputManager) (tr : List Invocation)
    (m1 : InputManager) (h : dispatch c a m = some (tr, m1)) :
    ∀ inv ∈ tr, StdFunction.target inv.handler ∈ m.handlers c ∧ inv.args = a := by
  unfold dispatch backupContainer at h
  cases hloop : invokeAll a (m.handlers c) (m.setHandlers c []) with
  | none => simp [hloop] at h
  | some r =>
    obtain ⟨tr1, m2⟩ := r
    simp only [hloop, Option.some.injEq, Prod.mk.injEq] at h
    rw [← h.1]
    exact invokeAll_sub a _ _ _ _ hloop

/-- C4, counterexample: the mouse-button vector holds `registeringHandler`, which
registers `quietHandler` (identity 1) for the mouse-button category when it is
invoked for a press; `quietHandler` was not in the vector when the pass began.  A
mouse-button dispatch that is started from inside the pass after that
registration (the backend delivering a release while the handler runs) detaches
the live vector and invokes `quietHandler`, before the outer pass has ended. -/
theorem registered_handler_invoked_inside_pass :
    (oneHandler Category.MouseButton (registeringHandler Category.MouseButton)).handlers
        Category.MouseButton =
      [StdFunction.target (registeringHandler Category.MouseButton)] ∧
    (registeringHandler Category.MouseButton).body (Args.mouseButton 0 0 GLFW_PRESS) =
      [Call.register Category.MouseButton quietHandler] ∧
    (mouseButtonCallback false 0 GLFW_RELEASE 0
        (midPass Category.MouseButton
          (oneHandler Category.MouseButton (registeringHandler Category.MouseButton))
          ((registeringHandler Category.MouseButton).body
            (Args.mouseButton 0 0 GLFW_PRESS)))).map
      (fun r => r.1.map (fun inv => (inv.handler.id, inv.args))) =
      some [(1, Args.mouseButton 0 0 GLFW_RELEASE)] ∧
    quietHandler.id = 1 ∧ (registeringHandler Category.MouseButton).id = 2 :=
  ⟨rfl, rfl, rfl, rfl, rfl⟩

/-- C4, amended: a pass of `c` over a vector that holds `k` moved-from functions (left
by earlier passes) followed by the handlers `hs`, one of which registers `g` for `c`
during the pass, `g` not being among `hs`.  The handlers of this embedding make
registration calls only, so `dispatch` gives every invocation between the beginning
and the end of a pass inside which no dispatch is started.  With `k = 0` the pass
invokes exactly the handlers `hs` and not `g`; with `k > 0` its first call is of a
moved-from function and no handler is invoked.  Last part, for every state: the loop
of a pass invokes only handlers that were in the vector when the pass began. -/
theorem registered_during_pass_not_invoked (c : Category) (a : Args) (m : InputManager)
    (k : Nat) (hs : List Handler) (g : Handler)
    (hlist : m.handlers c =
      List.replicate k StdFunction.movedFrom ++ hs.map StdFunction.target)
    (_hreg : Call.register c g ∈ hs.flatMap (fun h => h.body a))
    (hnew : g ∉ hs) :
    (k = 0 → ∃ m1, dispatch c a m = some (hs.map (fun h => { handler := h, args := a }), m1) ∧
      ∀ inv ∈ hs.map (fun h => ({ handler := h, args := a } : Invocation)), inv.handler ≠ g) ∧
    (0 < k → dispatch c a m = none) ∧
    (∀ tr m1, dispatch c a m = some (tr, m1) → ∀ inv ∈ tr, inv.handler ≠ g) ∧
    (∀ (n : InputManager) (tr : List Invocation) (n1 : InputManager),
      dispatch c a n = some (tr, n1) →
      ∀ inv ∈ tr, StdFunction.target inv.handler ∈ n.handlers c ∧ inv.args = a) := by
  have hnot : ∀ inv : Invocation, StdFunction.target inv.handler ∈ m.handlers c →
      inv.handler ≠ g := by
    intro inv hmem heq
    rw [hlist] at hmem
    rcases List.mem_append.mp hmem with hmf | htg
    · have := List.eq_of_mem_replicate hmf
      cases this
    · obtain ⟨h, hh, htarget⟩ := List.mem_map.mp htg
      cases htarget
      exact hnew (heq ▸ hh)
  refine ⟨?_, ?_, ?_, fun n tr n1 h => dispatch_sub c a n tr n1 h⟩
  · intro hk
    subst hk
    have hl : m.handlers c = hs.map StdFunction.target := by
      rw [hlist]
      rfl
    obtain ⟨m1, h1, _⟩ := dispatch_targets c a m hs hl
    refine ⟨m1, h1, ?_⟩
    intro inv hinv heq
    obtain ⟨h, hh, rfl⟩ := List.mem_map.mp hinv
    exact hnew (heq ▸ hh)
  · intro hk
    obtain ⟨j, rfl⟩ : ∃ j, k = j + 1 := ⟨k - 1, by omega⟩
    unfold dispatch backupContainer
    simp only [hlist, List.replicate_succ, List.cons_append, invokeAll]
  · intro tr m1 h inv hinv
    exact hnot inv (dispatch_sub c a m tr m1 h inv hinv).1

/-- Witness of C4: the only scroll handler registers `quietHandler` for the scroll
category; the pass invokes the registering handler and not `quietHandler`. -/
theorem registered_during_pass_not_invoked_witness :
    (oneHandler Category.MouseScroll (registeringHandler Category.MouseScroll)).handlers
        Category.MouseScroll =
      List.replicate 0 StdFunction.movedFrom ++
        [registeringHandler Category.MouseScroll].map StdFunction.target ∧
    ∃ m1, dispatch Category.MouseScroll (Args.mouseScroll 0 1)
        (oneHandler Category.MouseScroll (registeringHandler Category.MouseScroll)) =
        some ([registeringHandler Category.MouseScroll].map
          (fun h => { handler := h, args := Args.mouseScroll 0 1 }), m1) ∧
      ∀ inv ∈ [registeringHandler Category.MouseScroll].map
          (fun h => ({ handler := h, args := Args.mouseScroll 0 1 } : Invocation)),
        inv.handler ≠ quietHandler :=
  ⟨rfl, (registered_during_pass_not_invoked Category.MouseScroll (Args.mouseScroll 0 1)
    (oneHandler Category.MouseScroll (registeringHandler Category.MouseScroll)) 0
    [registeringHandler Category.MouseScroll] quietHandler rfl
    (by simp [registeringHandler, Handler.body])
    (by simp [registeringHandler, quietHandler])).1 rfl⟩

/-- C5 (evaluation at the failing input): the only scroll handler registers
`quietHandler` during a first pass.  After that pass the scroll vector does not
hold `quietHandler`, so the next pass does not run over it; the next pass invokes
the moved-from function the first pass left and has no result. -/
theorem registered_handler_lost_before_next_pass :
    (scrollCallback false 0 1
        (oneHandler Category.MouseScroll (registeringHandler Category.MouseScroll))).map
      (fun r => (r.1.map (fun inv => inv.handler.id), r.2.mouseScrollHandlers)) =
      some ([2], [StdFunction.movedFrom]) ∧
    StdFunction.target quietHandler ∉ [StdFunction.movedFrom] ∧
    ((scrollCallback false 0 1
        (oneHandler Category.MouseScroll (registeringHandler Category.MouseScroll))).bind
      (fun r => scrollCallback false 0 1 r.2)).isNone = true := by
  refine ⟨rfl, ?_, rfl⟩
  intro h
  cases h with
  | tail _ h1 => cases h1

/-- C6 (evaluation at the failing input): the window-resize vector holds one handler
at index 0, which registers another handler during the pass.  After the pass the
vector still has one element, and the function at index 0 is moved from: the index
does not designate the handler any more. -/
theorem index_designates_moved_from :
    (oneHandler Category.WindowResize
        (registeringHandler Category.WindowResize)).windowResizeHandlers[0]? =
      some (StdFunction.target (registeringHandler Category.WindowResize)) ∧
    (framebufferSizeCallback 640 480
        (oneHandler Category.WindowResize (registeringHandler Category.WindowResize))).map
      (fun r => (r.2.windowResizeHandlers.length, r.2.windowResizeHandlers[0]?)) =
      some (1, some StdFunction.movedFrom) ∧
    StdFunction.movedFrom ≠ StdFunction.target (registeringHandler Category.WindowResize) := by
  refine ⟨rfl, rfl, ?_⟩
  intro h
  cases h

/-! ## The key-state filter -/

theorem keyStateAt_set_ne (ks : List Bool) (i j : Int) (v : Bool) (hi : 0 ≤ i) (hj : 0 ≤ j)
    (hne : i ≠ j) : keyStateAt (ks.set i.toNat v) j = keyStateAt ks j := by
  have hnat : i.toNat ≠ j.toNat := by omega
  simp only [keyStateAt, hj, if_true]
  exact List.getElem?_set_ne hnat

theorem keyStateAt_set_self (ks : List Bool) (i : Int) (v s : Bool)
    (h : keyStateAt ks i = some s) : keyStateAt (ks.set i.toNat v) i = some v := by
  unfold keyStateAt at h ⊢
  split at h
  · rename_i hi
    simp only [hi, if_true]
    have hlt : i.toNat < ks.length := by
      rcases Nat.lt_or_ge i.toNat ks.length with hlt | hge
      · exact hlt
      · rw [List.getElem?_eq_none hge] at h
        cases h
    exact List.getElem?_set_self hlt
  · cases h


theorem keyStateAt_some_range (ks : List Bool) (i : Int) (s : Bool)
    (h : keyStateAt ks i = some s) : 0 ≤ i ∧ i.toNat < ks.length := by
  unfold keyStateAt at h
  split at h
  · rename_i hi
    refine ⟨hi, ?_⟩
    rcases Nat.lt_or_ge i.toNat ks.length with hlt | hge
    · exact hlt
    · rw [List.getElem?_eq_none hge] at h
      cases h
  · cases h

theorem keyFilter_cases (c : Bool) (ks ks1 : List Bool) (key a : Int) (d : Bool)
    (h : keyFilter c ks key a = some (d, ks1)) :
    (d = false ∧ ks1 = ks) ∨
    (d = true ∧ c = false ∧ ks1 = ks ∧ (key < 1 ∨ (a ≠ GLFW_PRESS ∧ a ≠ GLFW_RELEASE))) ∨
    (d = true ∧ 1 ≤ key ∧ ∃ s, keyStateAt ks (key - 1) = some s ∧
      ((a = GLFW_PRESS ∧ c = false ∧ ks1 = ks.set (key - 1).toNat true) ∨
       (a = GLFW_RELEASE ∧ s = true ∧ ks1 = ks.set (key - 1).toNat false))) := by
  unfold keyFilter at h
  simp only [GLFW_PRESS, GLFW_RELEASE] at h ⊢
  cases hs : keyStateAt ks (key - 1) with
  | none =>
    cases c
    · by_cases hkey : key ≥ 1
      · simp [hs, hkey] at h
      · simp [hs, hkey] at h
        obtain ⟨rfl, rfl⟩ := h
        right; left
        exact ⟨rfl, rfl, rfl, Or.inl (by omega)⟩
    · simp [hs] at h
  | some s =>
    have hkey : key ≥ 1 := by
      have := (keyStateAt_some_range ks (key - 1) s hs).1
      omega
    have hpb : (a == (1 : Int)) = decide (a = 1) := rfl
    have hrb : (a == (0 : Int)) = decide (a = 0) := rfl
    rw [hs] at h
    simp only [hpb, hrb, hkey, if_true] at h
    by_cases hp : a = 1 <;> by_cases hr : a = 0 <;> cases c <;> cases s <;>
      simp [hp, hr] at h <;> first
        | omega
        | (obtain ⟨rfl, rfl⟩ := h
           simp [hkey, hp, hr])

/-- What lines 14-20 do to the recorded state `b` of a key `K`, for an event of key
`key` with action `a` that has a result. -/
theorem keyFilter_state (c : Bool) (ks ks1 : List Bool) (key a K : Int) (d b : Bool)
    (h : keyFilter c ks key a = some (d, ks1)) (hb : keyStateAt ks (K - 1) = some b) :
    (d = false → ks1 = ks) ∧
    (key ≠ K → keyStateAt ks1 (K - 1) = some b) ∧
    (key = K → d = true → a = GLFW_PRESS → keyStateAt ks1 (K - 1) = some true) ∧
    (key = K → d = true → a = GLFW_RELEASE → b = true ∧ keyStateAt ks1 (K - 1) = some false) ∧
    (key = K → d = true → a ≠ GLFW_PRESS → a ≠ GLFW_RELEASE →
      keyStateAt ks1 (K - 1) = some b) := by
  have hK : 0 ≤ K - 1 := (keyStateAt_some_range ks (K - 1) b hb).1
  have hpr : GLFW_PRESS ≠ GLFW_RELEASE := by decide
  rcases keyFilter_cases c ks ks1 key a d h with ⟨hd, rfl⟩ | ⟨hd, _, rfl, hor⟩ | ⟨hd, hkey, s, hs, hcase⟩
  · subst hd
    refine ⟨fun _ => rfl, fun _ => hb, ?_, ?_, ?_⟩ <;> intro _ hd <;> cases hd
  · subst hd
    refine ⟨fun hd => Bool.noConfusion hd, fun _ => hb, ?_, ?_, ?_⟩
    · rintro rfl _ hp
      rcases hor with hlt | ⟨hnp, _⟩
      · omega
      · exact absurd hp hnp
    · rintro rfl _ hr
      rcases hor with hlt | ⟨_, hnr⟩
      · omega
      · exact absurd hr hnr
    · intro _ _ _ _
      exact hb
  · subst hd
    have hset : ∀ v, key ≠ K → keyStateAt (ks.set (key - 1).toNat v) (K - 1) = some b := by
      intro v hne
      rw [keyStateAt_set_ne ks (key - 1) (K - 1) v (by omega) hK (by omega)]
      exact hb
    rcases hcase with ⟨hp, _, rfl⟩ | ⟨hr, hst, rfl⟩
    · refine ⟨fun hd => Bool.noConfusion hd, hset true, ?_, ?_, ?_⟩
      · rintro rfl _ _
        exact keyStateAt_set_self ks (key - 1) true b hb
      · intro _ _ hr
        exact absurd (hp.symm.trans hr) hpr
      · intro _ _ hnp _
        exact absurd hp hnp
    · refine ⟨fun hd => Bool.noConfusion hd, hset false, ?_, ?_, ?_⟩
      · intro _ _ hp
        exact absurd (hp.symm.trans hr) hpr
      · rintro rfl _ _
        rw [hb] at hs
        cases hs
        exact ⟨hst, keyStateAt_set_self ks (key - 1) false b hb⟩
      · intro _ _ _ hnr
        exact absurd hr hnr

/-- Invariant behind C7, for a run that starts with `K` recorded as `b`: a
dispatched release of `K` either follows a dispatched press of `K` with no release
in between, or it is the first dispatched release and `K` was recorded as pressed
at the start. -/
theorem dispatchedActions_matched (K : Int) (events : List KeyEvent) :
    ∀ (ks : List Bool) (b : Bool), keyStateAt ks (K - 1) = some b →
    ∀ pre post : List Int, dispatchedActions K ks events = pre ++ GLFW_RELEASE :: post →
      (∃ p1 p2, pre = p1 ++ GLFW_PRESS :: p2 ∧ GLFW_RELEASE ∉ p2) ∨
      (b = true ∧ GLFW_RELEASE ∉ pre) := by
  induction events with
  | nil =>
    intro ks b _ pre post h
    simp [dispatchedActions, dispatchedKeyEvents] at h
  | cons e es ih =>
    intro ks b hb pre post h
    unfold dispatchedActions dispatchedKeyEvents at h
    cases hf : keyFilter e.isKeyboardCaptured ks e.key e.action with
    | none => simp [hf] at h
    | some r =>
      obtain ⟨d, ks1⟩ := r
      obtain ⟨hskip, hother, hpress, hrelease, hrepeat⟩ :=
        keyFilter_state _ _ _ _ _ K d b hf hb
      cases d with
      | false =>
        simp only [hf] at h
        have hks : ks1 = ks := hskip rfl
        subst hks
        exact ih ks1 b hb pre post h
      | true =>
        simp only [hf] at h
        by_cases hkey : e.key = K
        · simp only [List.filter_cons, hkey, decide_True, if_true, List.map_cons] at h
          have hpr : GLFW_PRESS ≠ GLFW_RELEASE := by decide
          cases pre with
          | nil =>
            have hact : e.action = GLFW_RELEASE := (List.cons.inj h).1
            exact Or.inr ⟨(hrelease hkey rfl hact).1, List.not_mem_nil _⟩
          | cons x pre1 =>
            obtain ⟨hx, hrest⟩ := List.cons.inj h
            by_cases hp : e.action = GLFW_PRESS
            · rcases ih ks1 true (hpress hkey rfl hp) pre1 post hrest with
                ⟨p1, p2, hpre, hno⟩ | ⟨_, hno⟩
              · exact Or.inl ⟨x :: p1, p2, by rw [hpre]; rfl, hno⟩
              · exact Or.inl ⟨[], pre1, by rw [← hx, hp]; rfl, hno⟩
            · by_cases hr : e.action = GLFW_RELEASE
              · rcases ih ks1 false (hrelease hkey rfl hr).2 pre1 post hrest with
                  ⟨p1, p2, hpre, hno⟩ | ⟨hfalse, _⟩
                · exact Or.inl ⟨x :: p1, p2, by rw [hpre]; rfl, hno⟩
                · cases hfalse
              · rcases ih ks1 b (hrepeat hkey rfl hp hr) pre1 post hrest with
                  ⟨p1, p2, hpre, hno⟩ | ⟨hb1, hno⟩
                · exact Or.inl ⟨x :: p1, p2, by rw [hpre]; rfl, hno⟩
                · refine Or.inr ⟨hb1, ?_⟩
                  intro hmem
                  rcases List.mem_cons.mp hmem with heq | hmem1
                  · exact hr (hx.trans heq.symm)
                  · exact hno hmem1
        · simp only [List.filter_cons, hkey, decide_False, Bool.false_eq_true, if_false] at h
          exact ih ks1 b (hother hkey) pre post h

theorem keyFilter_press_released (ks : List Bool) (K : Int)
    (hs : keyStateAt ks (K - 1) = some false) :
    keyFilter false ks K GLFW_PRESS = some (true, ks.set (K - 1).toNat true) ∧
    keyFilter true ks K GLFW_PRESS = some (false, ks) := by
  have hkey : K ≥ 1 := by
    have := (keyStateAt_some_range ks (K - 1) false hs).1
    omega
  constructor
  · unfold keyFilter
    simp only [hs, hkey, if_true]
    rfl
  · unfold keyFilter
    simp only [hs, if_true]
    rfl

theorem keyFilter_release_pressed (c : Bool) (ks : List Bool) (K : Int)
    (hs : keyStateAt ks (K - 1) = some true) :
    keyFilter c ks K GLFW_RELEASE = some (true, ks.set (K - 1).toNat false) := by
  have hkey : K ≥ 1 := by
    have := (keyStateAt_some_range ks (K - 1) true hs).1
    omega
  cases c
  · unfold keyFilter
    simp only [hs, hkey, if_true]
    rfl
  · unfold keyFilter
    simp only [hs, hkey, if_true]
    rfl

theorem keyFilter_release_released (c : Bool) (ks : List Bool) (K : Int)
    (hs : keyStateAt ks (K - 1) = some false) :
    keyFilter c ks K GLFW_RELEASE = some (false, ks) := by
  have hkey : K ≥ 1 := by
    have := (keyStateAt_some_range ks (K - 1) false hs).1
    omega
  cases c
  · unfold keyFilter
    simp only [hs, hkey, if_true]
    rfl
  · unfold keyFilter
    simp only [hs, if_true]
    rfl

theorem keyCallback_dispatches (c : Bool) (name : Int → Int → Option String)
    (key sc a mods : Int) (m : InputManager) (ks1 : List Bool) (hs us : List Handler)
    (hf : keyFilter c m.keyStates key a = some (true, ks1))
    (hk : m.keyHandlers = hs.map StdFunction.target)
    (hu : m.utf8KeyHandlers = us.map StdFunction.target) :
    ∃ m1, keyCallback c name key sc a mods m =
        some (keyInvocations hs us (name key sc) sc mods a, m1) ∧
      m1.keyStates = ks1 := by
  obtain ⟨m1, h1, h2⟩ :=
    keyDispatch_targets name key sc a mods { m with keyStates := ks1 } hs us hk hu
  refine ⟨m1, ?_, h2⟩
  unfold keyCallback
  rw [hf]
  exact h1

theorem keyCallback_returns_early (c : Bool) (name : Int → Int → Option String)
    (key sc a mods : Int) (m : InputManager) (ks1 : List Bool)
    (hf : keyFilter c m.keyStates key a = some (false, ks1)) :
    keyCallback c name key sc a mods m = some ([], m) := by
  unfold keyCallback
  rw [hf]

/-! ## Key events -/

/-- C7: for every sequence of key events with their capture answers, run from the
initial all-released key-state, and every key `K` in the valid range: whenever the
actions of the dispatched events of `K` split as `pre`, a release, `post`, a press
occurs in `pre` with no release after it. -/
theorem release_follows_dispatched_press (K : Int) (hK1 : 1 ≤ K) (hK2 : K ≤ GLFW_KEY_LAST)
    (events : List KeyEvent) (pre post : List Int)
    (hsplit : dispatchedActions K InputManager.initial.keyStates events =
      pre ++ GLFW_RELEASE :: post) :
    ∃ p1 p2, pre = p1 ++ GLFW_PRESS :: p2 ∧ GLFW_RELEASE ∉ p2 := by
  have hinit : keyStateAt InputManager.initial.keyStates (K - 1) = some false := by
    have hlt : (K - 1).toNat < GLFW_KEY_LAST := by omega
    simp only [keyStateAt, InputManager.initial, show (0 : Int) ≤ K - 1 by omega, if_true]
    exact List.getElem?_replicate_of_lt hlt
  rcases dispatchedActions_matched K events _ false hinit pre post hsplit with h | ⟨hb, _⟩
  · exact h
  · cases hb

set_option maxRecDepth 4000 in
/-- Witness of C7: on `pressReleaseRelease` the press and the first release of key 65
are dispatched, the second release is not. -/
theorem release_follows_dispatched_press_witness :
    ((1 : Int) ≤ 65 ∧ (65 : Int) ≤ GLFW_KEY_LAST) ∧
    dispatchedActions 65 InputManager.initial.keyStates pressReleaseRelease =
      [GLFW_PRESS] ++ GLFW_RELEASE :: [] ∧
    ∃ p1 p2, [GLFW_PRESS] = p1 ++ GLFW_PRESS :: p2 ∧ GLFW_RELEASE ∉ p2 :=
  ⟨⟨by decide, by decide⟩, rfl,
    release_follows_dispatched_press 65 (by decide) (by decide) pressReleaseRelease
      [GLFW_PRESS] [] rfl⟩

/-- Lines 14-20 on a press and two releases of a key `K` that is in the valid range
and recorded as not pressed (`hstate`), keyboard not captured: the callback reaches
its dispatch loops for the press and the first release only.  Whenever the vectors
hold targets at the time of a dispatched event, every key handler is invoked; the
second release invokes nothing and changes nothing. -/
theorem keyState_press_release_release (K : Int) (m : InputManager) (hs us : List Handler)
    (name : Int → Int → Option String) (sc mods : Int)
    (hstate : keyStateAt m.keyStates (K - 1) = some false)
    (hk : m.keyHandlers = hs.map StdFunction.target)
    (hu : m.utf8KeyHandlers = us.map StdFunction.target) :
    dispatchedKeyEvents m.keyStates
        [{ isKeyboardCaptured := false, key := K, scancode := sc, action := GLFW_PRESS,
           mods := mods },
         { isKeyboardCaptured := false, key := K, scancode := sc, action := GLFW_RELEASE,
           mods := mods },
         { isKeyboardCaptured := false, key := K, scancode := sc, action := GLFW_RELEASE,
           mods := mods }] =
      [{ isKeyboardCaptured := false, key := K, scancode := sc, action := GLFW_PRESS,
         mods := mods },
       { isKeyboardCaptured := false, key := K, scancode := sc, action := GLFW_RELEASE,
         mods := mods }] ∧
    ∃ m1, keyCallback false name K sc GLFW_PRESS mods m =
        some (keyInvocations hs us (name K sc) sc mods GLFW_PRESS, m1) ∧
      keyStateAt m1.keyStates (K - 1) = some true ∧
      ∀ (n1 : InputManager) (hs1 us1 : List Handler), n1.keyStates = m1.keyStates →
        n1.keyHandlers = hs1.map StdFunction.target →
        n1.utf8KeyHandlers = us1.map StdFunction.target →
        ∃ m2, keyCallback false name K sc GLFW_RELEASE mods n1 =
            some (keyInvocations hs1 us1 (name K sc) sc mods GLFW_RELEASE, m2) ∧
          keyStateAt m2.keyStates (K - 1) = some false ∧
          ∀ n2 : InputManager, n2.keyStates = m2.keyStates →
            keyCallback false name K sc GLFW_RELEASE mods n2 = some ([], n2) := by
  have hf1 := (keyFilter_press_released m.keyStates K hstate).1
  have hs1 : keyStateAt (m.keyStates.set (K - 1).toNat true) (K - 1) = some true :=
    keyStateAt_set_self _ _ _ _ hstate
  have hf2 := keyFilter_release_pressed false _ K hs1
  have hs2 : keyStateAt ((m.keyStates.set (K - 1).toNat true).set (K - 1).toNat false)
      (K - 1) = some false := keyStateAt_set_self _ _ _ _ hs1
  have hf3 := keyFilter_release_released false _ K hs2
  constructor
  · simp only [dispatchedKeyEvents, hf1, hf2, hf3]
  obtain ⟨m1, hm1, hks1⟩ := keyCallback_dispatches false name K sc GLFW_PRESS mods m _ hs us
    hf1 hk hu
  have hp1 : keyStateAt m1.keyStates (K - 1) = some true := by
    rw [hks1]
    exact hs1
  refine ⟨m1, hm1, hp1, ?_⟩
  intro n1 hs1 us1 hn1 hk1 hu1
  rw [← hn1] at hp1
  obtain ⟨m2, hm2, hks2⟩ := keyCallback_dispatches false name K sc GLFW_RELEASE mods n1 _
    hs1 us1 (keyFilter_release_pressed false n1.keyStates K hp1) hk1 hu1
  have hp2 : keyStateAt m2.keyStates (K - 1) = some false := by
    rw [hks2]
    exact keyStateAt_set_self _ _ _ _ hp1
  refine ⟨m2, hm2, hp2, ?_⟩
  intro n2 hn2
  rw [← hn2] at hp2
  exact keyCallback_returns_early false name K sc GLFW_RELEASE mods n2 _
    (keyFilter_release_released false n2.keyStates K hp2)

/-- C9: while the keyboard is captured, a press of a key `K` that is in the valid
range and recorded as not pressed (`hstate`) makes the key callback return early:
no key handler and no UTF-8 handler is invoked and the whole state, the key-state
included, is unchanged. -/
theorem captured_press_suppressed (K : Int) (m : InputManager)
    (name : Int → Int → Option String) (sc mods : Int)
    (hstate : keyStateAt m.keyStates (K - 1) = some false) :
    keyCallback true name K sc GLFW_PRESS mods m = some ([], m) ∧
    keyFilter true m.keyStates K GLFW_PRESS = some (false, m.keyStates) :=
  ⟨keyCallback_returns_early true name K sc GLFW_PRESS mods m _
    (keyFilter_press_released m.keyStates K hstate).2,
   (keyFilter_press_released m.keyStates K hstate).2⟩

set_option maxRecDepth 4000 in
/-- Witness of C9: a captured press of key 65 on the initial state with one key
handler and one UTF-8 handler registered. -/
theorem captured_press_suppressed_witness :
    keyStateAt ((oneHandler Category.Key quietHandler).registerHandler Category.Utf8Key
        quietHandler).keyStates (65 - 1) = some false ∧
    keyCallback true nameA 65 38 GLFW_PRESS 0
        ((oneHandler Category.Key quietHandler).registerHandler Category.Utf8Key quietHandler) =
      some ([], (oneHandler Category.Key quietHandler).registerHandler Category.Utf8Key
        quietHandler) :=
  ⟨rfl, (captured_press_suppressed 65
    ((oneHandler Category.Key quietHandler).registerHandler Category.Utf8Key quietHandler)
    nameA 38 0 rfl).1⟩

/-- Lines 14-27 on a release of a key `K` that is in the valid range and recorded as
pressed (`hstate`) while the keyboard is captured: the callback reaches its loops,
records `K` as released and, when the vectors hold targets, invokes every key
handler with the scancode, the modifiers and the release action. -/
theorem keyState_captured_release (K : Int) (m : InputManager) (hs us : List Handler)
    (name : Int → Int → Option String) (sc mods : Int)
    (hstate : keyStateAt m.keyStates (K - 1) = some true)
    (hk : m.keyHandlers = hs.map StdFunction.target)
    (hu : m.utf8KeyHandlers = us.map StdFunction.target) :
    ∃ m1, keyCallback true name K sc GLFW_RELEASE mods m =
        some (keyInvocations hs us (name K sc) sc mods GLFW_RELEASE, m1) ∧
      keyStateAt m1.keyStates (K - 1) = some false := by
  obtain ⟨m1, hm1, hks1⟩ := keyCallback_dispatches true name K sc GLFW_RELEASE mods m _ hs us
    (keyFilter_release_pressed true m.keyStates K hstate) hk hu
  refine ⟨m1, hm1, ?_⟩
  rw [hks1]
  exact keyStateAt_set_self _ _ _ _ hstate

set_option maxRecDepth 4000 in
/-- C8 (evaluation at the failing input): `quietHandler` is the only key handler, key
65 is recorded as not pressed, the keyboard is not captured.  The press invokes the
handler, records the key as pressed and leaves the key vector with one moved-from
function.  The first release passes lines 14-20, so its loop runs over that
vector: the handler is not invoked, the call of the moved-from function has no
result. -/
theorem release_after_press_not_delivered :
    (keyCallback false nameA 65 38 GLFW_PRESS 0 (oneHandler Category.Key quietHandler)).map
      (fun r => (r.1.map (fun inv => (inv.handler.id, inv.args)), r.2.keyHandlers,
        keyStateAt r.2.keyStates (65 - 1))) =
      some ([(1, Args.key 38 0 GLFW_PRESS)], [StdFunction.movedFrom], some true) ∧
    ((keyCallback false nameA 65 38 GLFW_PRESS 0 (oneHandler Category.Key quietHandler)).bind
      (fun r => keyFilter false r.2.keyStates 65 GLFW_RELEASE)).map (fun d => d.1) =
      some true ∧
    ((keyCallback false nameA 65 38 GLFW_PRESS 0 (oneHandler Category.Key quietHandler)).bind
      (fun r => keyCallback false nameA 65 38 GLFW_RELEASE 0 r.2)).isNone = true :=
  ⟨rfl, rfl, rfl⟩

set_option maxRecDepth 4000 in
/-- C10 (evaluation at the failing input): `quietHandler` is the only key handler; key
65 is pressed while the keyboard is not captured, which invokes the handler; then
the keyboard is captured and key 65 is released.  The release passes lines 14-20
and the key is recorded as released, but the loop runs over the moved-from function
the press left in the key vector: the handler is not invoked. -/
theorem captured_release_not_delivered :
    (keyCallback false nameA 65 38 GLFW_PRESS 0 (oneHandler Category.Key quietHandler)).map
      (fun r => (r.1.map (fun inv => inv.handler.id), r.2.keyHandlers)) =
      some ([1], [StdFunction.movedFrom]) ∧
    ((keyCallback false nameA 65 38 GLFW_PRESS 0 (oneHandler Category.Key quietHandler)).bind
      (fun r => keyFilter true r.2.keyStates 65 GLFW_RELEASE)).map
        (fun d => (d.1, keyStateAt d.2 (65 - 1))) = some (true, some false) ∧
    ((keyCallback false nameA 65 38 GLFW_PRESS 0 (oneHandler Category.Key quietHandler)).bind
      (fun r => keyCallback true nameA 65 38 GLFW_RELEASE 0 r.2)).isNone = true :=
  ⟨rfl, rfl, rfl⟩

/-! ## Key codes out of range, key names, mouse capture -/

/-- Lines 14-20 for a key code below 1 while the keyboard is not captured: the
key-state is neither read nor written and the callback goes on to its loops. -/
theorem keyFilter_below_range (ks : List Bool) (key a : Int) (hkey : key < 1) :
    keyFilter false ks key a = some (true, ks) := by
  have hnot : ¬ key ≥ 1 := by omega
  unfold keyFilter
  simp only [hnot, if_false]
  rfl

set_option maxRecDepth 4000 in
/-- C11 (evaluation at the failing input): the backend's unknown key `-1` while the
keyboard is captured.  Line 14 evaluates `keyStates[key - 1]`, index `-2`, before
any range check: the read is out of range and the callback has no result.  Last
part: key 349, one above the array's size, not captured, passes `key >= 1` and
reads `keyStates[348]`, out of range as well. -/
theorem unknown_key_read_out_of_range :
    keyStateAt InputManager.initial.keyStates (-1 - 1) = none ∧
    keyFilter true InputManager.initial.keyStates (-1) GLFW_PRESS = none ∧
    (keyCallback true nameA (-1) 0 GLFW_PRESS 0
      (oneHandler Category.Key quietHandler)).isNone = true ∧
    InputManager.initial.keyStates.length = 348 ∧
    keyFilter false InputManager.initial.keyStates 349 GLFW_PRESS = none :=
  ⟨rfl, rfl, rfl, rfl, rfl⟩

/-- A key event that reaches the dispatch loops (`hf`) while every function of the two
vectors holds a target, as they do after registrations and before the first
dispatched key event; the vectors hold the handlers `hs` and `us`.  When the
key-name lookup returns nothing, exactly
the key handlers are invoked, once each; when it returns `utf8key`, the key handlers
are invoked and then every UTF-8 handler once, with `utf8key` and the modifiers
and action the key handlers received. -/
theorem utf8_dispatch_follows_lookup (c : Bool) (name : Int → Int → Option String)
    (key sc a mods : Int) (m : InputManager) (ks1 : List Bool) (hs us : List Handler)
    (hf : keyFilter c m.keyStates key a = some (true, ks1))
    (hk : m.keyHandlers = hs.map StdFunction.target)
    (hu : m.utf8KeyHandlers = us.map StdFunction.target) :
    (name key sc = none →
      ∃ m1, keyCallback c name key sc a mods m =
        some (hs.map (fun h => { handler := h, args := Args.key sc mods a }), m1)) ∧
    (∀ utf8key, name key sc = some utf8key →
      ∃ m1, keyCallback c name key sc a mods m =
        some (hs.map (fun h => { handler := h, args := Args.key sc mods a }) ++
              us.map (fun h => { handler := h, args := Args.utf8Key utf8key mods a }), m1)) := by
  obtain ⟨m1, h1, _⟩ := keyCallback_dispatches c name key sc a mods m ks1 hs us hf hk hu
  constructor
  · intro hn
    refine ⟨m1, ?_⟩
    rw [h1, hn]
    simp only [keyInvocations, List.append_nil]
  · intro utf8key hn
    refine ⟨m1, ?_⟩
    rw [h1, hn]
    rfl

set_option maxRecDepth 4000 in
/-- Example of a first key event: a press of key 65, not captured, with one key handler
and one UTF-8 handler registered; the lookup resolves the name `a`. -/
theorem utf8_dispatch_follows_lookup_witness :
    keyFilter false ((oneHandler Category.Key quietHandler).registerHandler Category.Utf8Key
        (registeringHandler Category.Utf8Key)).keyStates 65 GLFW_PRESS =
      some (true, InputManager.initial.keyStates.set 64 true) ∧
    ∃ m1, keyCallback false nameA 65 38 GLFW_PRESS 0
        ((oneHandler Category.Key quietHandler).registerHandler Category.Utf8Key
          (registeringHandler Category.Utf8Key)) =
      some ([quietHandler].map (fun h => { handler := h, args := Args.key 38 0 GLFW_PRESS }) ++
            [registeringHandler Category.Utf8Key].map
              (fun h => { handler := h, args := Args.utf8Key "a" 0 GLFW_PRESS }), m1) :=
  ⟨rfl, (utf8_dispatch_follows_lookup false nameA 65 38 GLFW_PRESS 0
    ((oneHandler Category.Key quietHandler).registerHandler Category.Utf8Key
      (registeringHandler Category.Utf8Key))
    (InputManager.initial.keyStates.set 64 true) [quietHandler]
    [registeringHandler Category.Utf8Key] rfl rfl rfl).2 "a" rfl⟩

set_option maxRecDepth 4000 in
/-- C12 (evaluation at the failing input): `quietHandler` is registered as key handler
and `secondHandler` as UTF-8 handler; key 65 is pressed, then key 66, the keyboard
not captured and the key names not resolved.  The first press invokes the key
handler and no UTF-8 handler, and leaves one moved-from function in each vector.
The second press passes lines 14-20, so it is a dispatched event, but its loop calls
the moved-from function: the key handler is not invoked.  The same holds when the
name of the second key resolves: neither handler is invoked. -/
theorem second_key_event_reaches_no_handler :
    (keyCallback false (fun _ _ => none) 65 38 GLFW_PRESS 0
        ((oneHandler Category.Key quietHandler).registerHandler Category.Utf8Key
          secondHandler)).map
      (fun r => (r.1.map (fun inv => (inv.handler.id, inv.args)), r.2.keyHandlers,
        r.2.utf8KeyHandlers)) =
      some ([(1, Args.key 38 0 GLFW_PRESS)], [StdFunction.movedFrom],
        [StdFunction.movedFrom]) ∧
    ((keyCallback false (fun _ _ => none) 65 38 GLFW_PRESS 0
        ((oneHandler Category.Key quietHandler).registerHandler Category.Utf8Key
          secondHandler)).bind
      (fun r => keyFilter false r.2.keyStates 66 GLFW_PRESS)).map (fun d => d.1) =
      some true ∧
    ((keyCallback false (fun _ _ => none) 65 38 GLFW_PRESS 0
        ((oneHandler Category.Key quietHandler).registerHandler Category.Utf8Key
          secondHandler)).bind
      (fun r => keyCallback false (fun _ _ => none) 66 39 GLFW_PRESS 0 r.2)).isNone = true ∧
    ((keyCallback false (fun _ _ => none) 65 38 GLFW_PRESS 0
        ((oneHandler Category.Key quietHandler).registerHandler Category.Utf8Key
          secondHandler)).bind
      (fun r => keyCallback false nameA 66 39 GLFW_PRESS 0 r.2)).isNone = true :=
  ⟨rfl, rfl, rfl, rfl⟩

/-- C13: while `isMouseCaptured()` returns true, the mouse-button, scroll,
cursor-enter/leave and cursor-position callbacks and a cursor-hold tick return at
once: no handler is invoked and the state returned is the state given, with every
handler vector and every hold record (anchor, start time) as before. -/
theorem mouse_captured_suppresses (m : InputManager) (button action mods entered : Int)
    (x y glfwGetTime : ℚ) :
    mouseButtonCallback true button action mods m = some ([], m) ∧
    scrollCallback true x y m = some ([], m) ∧
    cursorEnterCallback true entered m = some ([], m) ∧
    cursorPosCallback true x y m = some ([], m) ∧
    elapsedTime true x y glfwGetTime m = some ([], m) :=
  ⟨rfl, rfl, rfl, rfl, rfl⟩

/-! ## Rounding to `double` -/

theorem log2Floor_spec (fuel n : Nat) (hn : 0 < n) (hf : n ≤ fuel) :
    2 ^ log2Floor fuel n ≤ n ∧ n < 2 ^ (log2Floor fuel n + 1) := by
  induction fuel generalizing n with
  | zero => omega
  | succ fuel ih =>
    by_cases h2 : n < 2
    · have h1 : n = 1 := by omega
      subst h1
      simp [log2Floor]
    · have hdiv : 0 < n / 2 := Nat.div_pos (by omega) (by omega)
      have hle : n / 2 ≤ fuel := by omega
      obtain ⟨hlo, hhi⟩ := ih (n / 2) hdiv hle
      simp only [log2Floor, h2, if_false]
      constructor
      · rw [pow_succ]
        omega
      · rw [pow_succ]
        omega

theorem binade_eq (q : ℚ) :
    binade q =
      if (2 : ℚ) ^ ((log2Floor q.num.natAbs q.num.natAbs : Int) - (log2Floor q.den q.den : Int)) *
          (q.den : ℚ) ≤ (q.num.natAbs : ℚ)
      then (log2Floor q.num.natAbs q.num.natAbs : Int) - (log2Floor q.den q.den : Int)
      else (log2Floor q.num.natAbs q.num.natAbs : Int) - (log2Floor q.den q.den : Int) - 1 := by
  unfold binade
  simp only
  generalize (log2Floor q.num.natAbs q.num.natAbs : Int) - (log2Floor q.den q.den : Int) = e
  generalize q.num.natAbs = n
  generalize q.den = d
  by_cases he : e ≥ 0
  · obtain ⟨k, rfl⟩ := Int.eq_ofNat_of_zero_le he
    have hiff : (2 ^ k * d ≤ n) ↔ ((2 : ℚ) ^ (k : Int) * (d : ℚ) ≤ (n : ℚ)) := by
      rw [zpow_natCast]
      exact_mod_cast Iff.rfl
    simp only [he, if_true, Int.toNat_ofNat, hiff]
  · have hneg : 0 ≤ -e := by omega
    obtain ⟨k, hk⟩ := Int.eq_ofNat_of_zero_le hneg
    have he2 : e = -(k : Int) := by omega
    subst he2
    have hpos : (0 : ℚ) < (2 : ℚ) ^ k := by positivity
    have hiff : (d ≤ n * 2 ^ k) ↔ ((2 : ℚ) ^ (-(k : Int)) * (d : ℚ) ≤ (n : ℚ)) := by
      rw [zpow_neg, zpow_natCast, inv_mul_le_iff₀ hpos]
      constructor
      · intro h
        have : ((d : ℕ) : ℚ) ≤ ((n * 2 ^ k : ℕ) : ℚ) := by exact_mod_cast h
        push_cast at this
        linarith
      · intro h
        have : ((d : ℕ) : ℚ) ≤ ((n * 2 ^ k : ℕ) : ℚ) := by
          push_cast
          linarith
        exact_mod_cast this
    simp only [he, if_false, neg_neg, Int.toNat_ofNat, hiff]

/-- For `q ≠ 0`, `binade q` is the exponent `e` with `2 ^ e ≤ |q| < 2 ^ (e + 1)`. -/
theorem binade_spec (q : ℚ) (hq : q ≠ 0) :
    (2 : ℚ) ^ binade q ≤ |q| ∧ |q| < (2 : ℚ) ^ (binade q + 1) := by
  have hnum : q.num ≠ 0 := Rat.num_ne_zero.mpr hq
  have hn : 0 < q.num.natAbs := Int.natAbs_pos.mpr hnum
  have hd : 0 < q.den := q.den_pos
  obtain ⟨hn1, hn2⟩ := log2Floor_spec q.num.natAbs q.num.natAbs hn le_rfl
  obtain ⟨hd1, hd2⟩ := log2Floor_spec q.den q.den hd le_rfl
  have hD : (0 : ℚ) < (q.den : ℚ) := by exact_mod_cast hd
  have habs : |q| = (q.num.natAbs : ℚ) / (q.den : ℚ) := by
    conv_lhs => rw [← Rat.num_div_den q]
    rw [abs_div, Nat.cast_natAbs, Int.cast_abs]
    congr 1
    exact abs_of_pos hD
  have hN1 : (2 : ℚ) ^ log2Floor q.num.natAbs q.num.natAbs ≤ (q.num.natAbs : ℚ) := by
    exact_mod_cast hn1
  have hN2 : (q.num.natAbs : ℚ) < (2 : ℚ) ^ log2Floor q.num.natAbs q.num.natAbs * 2 := by
    have h : (q.num.natAbs : ℚ) <
        ((2 ^ (log2Floor q.num.natAbs q.num.natAbs + 1) : ℕ) : ℚ) := by exact_mod_cast hn2
    push_cast at h
    rw [pow_succ] at h
    exact h
  have hD1 : (2 : ℚ) ^ log2Floor q.den q.den ≤ (q.den : ℚ) := by exact_mod_cast hd1
  have hD2 : (q.den : ℚ) < (2 : ℚ) ^ log2Floor q.den q.den * 2 := by
    have h : (q.den : ℚ) < ((2 ^ (log2Floor q.den q.den + 1) : ℕ) : ℚ) := by
      exact_mod_cast hd2
    push_cast at h
    rw [pow_succ] at h
    exact h
  rw [binade_eq, habs]
  generalize log2Floor q.num.natAbs q.num.natAbs = a at hN1 hN2 ⊢
  generalize log2Floor q.den q.den = b at hD1 hD2 ⊢
  generalize (q.num.natAbs : ℚ) = N at hN1 hN2 ⊢
  generalize (q.den : ℚ) = D at hD hD1 hD2 ⊢
  have hA : (0 : ℚ) < (2 : ℚ) ^ a := by positivity
  have hB : (0 : ℚ) < (2 : ℚ) ^ b := by positivity
  have hX : (2 : ℚ) ^ ((a : Int) - (b : Int)) = (2 : ℚ) ^ a / (2 : ℚ) ^ b := by
    rw [zpow_sub₀ (by norm_num : (2 : ℚ) ≠ 0), zpow_natCast, zpow_natCast]
  have hXB : (2 : ℚ) ^ a / (2 : ℚ) ^ b * (2 : ℚ) ^ b = (2 : ℚ) ^ a := by
    field_simp
  have hXpos : (0 : ℚ) < (2 : ℚ) ^ a / (2 : ℚ) ^ b := by positivity
  by_cases ht : (2 : ℚ) ^ ((a : Int) - (b : Int)) * D ≤ N
  · simp only [ht, if_true]
    constructor
    · rw [le_div_iff₀ hD]
      exact ht
    · rw [div_lt_iff₀ hD, zpow_add_one₀ (by norm_num : (2 : ℚ) ≠ 0), hX]
      have h1 : (2 : ℚ) ^ a / (2 : ℚ) ^ b * (2 : ℚ) ^ b ≤ (2 : ℚ) ^ a / (2 : ℚ) ^ b * D :=
        mul_le_mul_of_nonneg_left hD1 hXpos.le
      nlinarith
  · simp only [ht, if_false]
    have ht2 : N < (2 : ℚ) ^ ((a : Int) - (b : Int)) * D := not_le.mp ht
    constructor
    · rw [le_div_iff₀ hD, zpow_sub_one₀ (by norm_num : (2 : ℚ) ≠ 0), hX]
      have h1 : (2 : ℚ) ^ a / (2 : ℚ) ^ b * D < (2 : ℚ) ^ a / (2 : ℚ) ^ b * ((2 : ℚ) ^ b * 2) :=
        mul_lt_mul_of_pos_left hD2 hXpos
      have h2 : (2 : ℚ) ^ a / (2 : ℚ) ^ b * ((2 : ℚ) ^ b * 2) = (2 : ℚ) ^ a * 2 := by
        rw [← mul_assoc, hXB]
      rw [h2] at h1
      have h3 : (2 : ℚ) ^ a / (2 : ℚ) ^ b * (2 : ℚ)⁻¹ * D =
          ((2 : ℚ) ^ a / (2 : ℚ) ^ b * D) / 2 := by
        ring
      rw [h3]
      linarith
    · rw [div_lt_iff₀ hD, sub_add_cancel]
      exact ht2

/-- The rounded value is an integer multiple of the spacing, the integer is nearest to
the scaled exact value, and in a tie it is even. -/
theorem roundToDouble_nearest (q : ℚ) (hq : q ≠ 0) :
    ∃ n : Int, roundToDouble q = (n : ℚ) * (2 : ℚ) ^ (max (binade q - 52) (-1074)) ∧
      |(n : ℚ) - q / (2 : ℚ) ^ (max (binade q - 52) (-1074))| ≤ 1 / 2 ∧
      (|(n : ℚ) - q / (2 : ℚ) ^ (max (binade q - 52) (-1074))| = 1 / 2 → n % 2 = 0) := by
  simp only [roundToDouble, hq, if_false]
  set s : ℚ := q / (2 : ℚ) ^ (max (binade q - 52) (-1074)) with hs
  have hfl : (⌊s⌋ : ℚ) ≤ s := Int.floor_le s
  have hlt : s < (⌊s⌋ : ℚ) + 1 := Int.lt_floor_add_one s
  by_cases h1 : s - (⌊s⌋ : ℚ) < 1 / 2
  · refine ⟨⌊s⌋, by simp only [h1, if_true], ?_, ?_⟩
    · rw [abs_le]; constructor <;> linarith
    · intro habs
      rw [abs_sub_comm, abs_of_nonneg (by linarith)] at habs
      linarith
  · by_cases h2 : 1 / 2 < s - (⌊s⌋ : ℚ)
    · refine ⟨⌊s⌋ + 1, by simp only [h1, h2, if_true, if_false], ?_, ?_⟩
      · rw [abs_le]; push_cast; constructor <;> linarith
      · intro habs
        push_cast at habs
        rw [abs_of_nonneg (by linarith)] at habs
        linarith
    · have heq : s - (⌊s⌋ : ℚ) = 1 / 2 := le_antisymm (not_lt.mp h2) (not_lt.mp h1)
      by_cases h3 : ⌊s⌋ % 2 = 0
      · refine ⟨⌊s⌋, by simp only [h1, h2, h3, if_true, if_false], ?_, fun _ => h3⟩
        rw [abs_le]; constructor <;> linarith
      · refine ⟨⌊s⌋ + 1, by simp only [h1, h2, h3, if_false], ?_, fun _ => by omega⟩
        rw [abs_le]; push_cast; constructor <;> linarith

/-! ## Cursor hold -/

theorem restoreContainer_snd {α : Type} (moveOut : α → α) (container backup : List α) :
    (restoreContainer moveOut container backup).2 = container.map moveOut := by
  cases container with
  | nil => rfl
  | cons a rest => rfl

theorem roundToDouble_zero : roundToDouble 0 = 0 := by
  simp only [roundToDouble, if_true]

theorem roundToDouble_10 : roundToDouble 10 = 10 := by decide!

theorem roundToDouble_25 : roundToDouble 25 = 25 := by decide!

theorem roundToDouble_100 : roundToDouble 100 = 100 := by decide!

theorem roundToDouble_200 : roundToDouble 200 = 200 := by decide!

theorem roundToDouble_250 : roundToDouble 250 = 250 := by decide!

theorem roundToDouble_10000 : roundToDouble 10000 = 10000 := by decide!

/-- Values of `roundToDouble`: a sum that is not representable goes to the nearest
double, a tie goes to the even one, and below the normal range the spacing is
`2 ^ (-1074)`. -/
theorem roundToDouble_values :
    roundToDouble (25 + 1 / 2 ^ 60) = 25 ∧
    roundToDouble (1 / 10) = 3602879701896397 / 36028797018963968 ∧
    roundToDouble (2 ^ 53 + 1) = 2 ^ 53 ∧
    roundToDouble (2 ^ 53 + 3) = 2 ^ 53 + 4 ∧
    roundToDouble (-(2 ^ 53 + 3)) = -(2 ^ 53 + 4) ∧
    roundToDouble (1 / 2 ^ 1075) = 0 ∧
    roundToDouble (3 / 2 ^ 1075) = 1 / 2 ^ 1073 := by
  refine ⟨?_, ?_, ?_, ?_, ?_, ?_, ?_⟩ <;> decide!

/-- The comparison of line 129 is made on the rounded `dv2`: for the record of radius
5 anchored at the origin and the position `(5, 2 ^ (-30))`, whose exact squared
distance exceeds 25, `dv2` is 25 and the position counts as within the radius. -/
theorem dv2_rounds :
    dv2 5 (1 / 2 ^ 30) anchoredAtOrigin.moveOut = 25 ∧
    (holdStep 5 (1 / 2 ^ 30) 250 anchoredAtOrigin.moveOut).2 = true := by
  constructor <;> decide!

theorem holdStep_sentinel (x y now : ℚ) (it : CursorHoldData) (h : it.startTime < 0) :
    holdStep x y now it = ({ it with startTime := now, x := x, y := y }, false) := by
  simp only [holdStep, h, if_true]

theorem holdStep_far (x y now : ℚ) (it : CursorHoldData) (hanch : 0 ≤ it.startTime)
    (hfar : it.threshold2 < dv2 x y it) :
    holdStep x y now it = ({ it with startTime := now, x := x, y := y }, false) := by
  simp only [holdStep, not_lt.mpr hanch, not_le.mpr hfar, if_false]

theorem holdStep_near (x y now : ℚ) (it : CursorHoldData) (hanch : 0 ≤ it.startTime)
    (hnear : dv2 x y it ≤ it.threshold2) :
    holdStep x y now it =
      (it, decide (roundToDouble (now - it.startTime) ≥ it.timeToTrigger)) := by
  simp only [holdStep, not_lt.mpr hanch, hnear, if_false, if_true]

theorem holdInvocations_append (x y now : ℚ) (its1 its2 : List CursorHoldData) :
    holdInvocations x y now (its1 ++ its2) =
      holdInvocations x y now its1 ++ holdInvocations x y now its2 := by
  induction its1 with
  | nil => rfl
  | cons it rest ih =>
    simp only [List.cons_append, holdInvocations]
    split <;> simp [ih]

/-- The loop of a tick on records whose firing handlers hold a target. -/
theorem holdLoop_callable (x y now : ℚ) (its : List CursorHoldData)
    (hcall : FiringCallable x y now its) (m : InputManager) :
    ∃ m1, holdLoop x y now its m =
      some (holdInvocations x y now its, its.map (fun it => (holdStep x y now it).1), m1) := by
  induction its generalizing m with
  | nil => exact ⟨m, rfl⟩
  | cons it rest ih =>
    have hrest : FiringCallable x y now rest := fun e he hf =>
      hcall e (List.mem_cons_of_mem _ he) hf
    cases hstep : holdStep x y now it with
    | mk it1 fires =>
      cases fires with
      | false =>
        obtain ⟨m1, h1⟩ := ih hrest m
        refine ⟨m1, ?_⟩
        simp only [holdLoop, hstep, h1, holdInvocations, List.map_cons]
      | true =>
        obtain ⟨h, hh⟩ := hcall it (List.mem_cons_self _ _) (by rw [hstep])
        obtain ⟨m1, h1⟩ := ih hrest (applyCalls m (h.body (Args.cursorHold it.x it.y)))
        refine ⟨m1, ?_⟩
        simp only [holdLoop, hstep, hh, h1, holdInvocations, List.map_cons]

/-- One tick, mouse not captured, on records whose firing handlers hold a target:
the invocations, and the records the tick leaves in `cursorHoldHandlers`. -/
theorem elapsedTime_callable (x y glfwGetTime : ℚ) (m : InputManager)
    (hcall : FiringCallable x y (roundToDouble (glfwGetTime * 1000)) m.cursorHoldHandlers) :
    ∃ m1, elapsedTime false x y glfwGetTime m =
        some (holdInvocations x y (roundToDouble (glfwGetTime * 1000)) m.cursorHoldHandlers,
          m1) ∧
      m1.cursorHoldHandlers = m.cursorHoldHandlers.map
        (fun it => (holdStep x y (roundToDouble (glfwGetTime * 1000)) it).1.moveOut) := by
  obtain ⟨m1, h1⟩ := holdLoop_callable x y (roundToDouble (glfwGetTime * 1000))
    m.cursorHoldHandlers hcall { m with cursorHoldHandlers := [] }
  simp only [elapsedTime, backupContainer, h1, Bool.false_eq_true, if_false]
  refine ⟨_, rfl, ?_⟩
  simp only [restoreContainer_snd, List.map_map]
  rfl

/-- The loop body is level-triggered: a tick on a single record `it` that holds the
target `h`, is anchored, within the radius and past its duration invokes `h` with
the anchor of the record and leaves anchor and start time as they were; the record
the tick leaves in `cursorHoldHandlers` is `it` with its handler moved from.  (No
run from the initial state reaches such a record: a record is anchored by a tick,
and the `restoreContainer` of that tick leaves its handler moved from.) -/
theorem hold_fires_with_anchor (x y glfwGetTime : ℚ) (m : InputManager) (it : CursorHoldData)
    (h : Handler) (hlist : m.cursorHoldHandlers = [it]) (hh : it.handler = StdFunction.target h)
    (hanch : 0 ≤ it.startTime)
    (hnear : dv2 x y it ≤ it.threshold2)
    (hdur : it.timeToTrigger ≤
      roundToDouble (roundToDouble (glfwGetTime * 1000) - it.startTime)) :
    ∃ m1, elapsedTime false x y glfwGetTime m =
        some ([{ handler := h, args := Args.cursorHold it.x it.y }], m1) ∧
      m1.cursorHoldHandlers = [it.moveOut] := by
  have hstep : holdStep x y (roundToDouble (glfwGetTime * 1000)) it = (it, true) := by
    rw [holdStep_near x y _ it hanch hnear]
    simp only [ge_iff_le, hdur, decide_True]
  have hcall : FiringCallable x y (roundToDouble (glfwGetTime * 1000))
      m.cursorHoldHandlers := by
    intro e he _
    rw [hlist] at he
    rw [List.mem_singleton.mp he]
    exact ⟨h, hh⟩
  obtain ⟨m1, h1, h2⟩ := elapsedTime_callable x y glfwGetTime m hcall
  refine ⟨m1, ?_, ?_⟩
  · rw [h1, hlist]
    simp only [holdInvocations, hstep, hh]
  · rw [h2, hlist]
    simp only [List.map_cons, List.map_nil, hstep]

theorem holdsUnfired_setHandlers (m : InputManager) (c : Category) (l : List StdFunction)
    (h : HoldsUnfired m) : HoldsUnfired (m.setHandlers c l) := by
  cases c <;> exact h

theorem holdsUnfired_applyCall (m : InputManager) (call : Call) (h : HoldsUnfired m) :
    HoldsUnfired (applyCall m call) := by
  cases call with
  | register c g => exact holdsUnfired_setHandlers m c _ h
  | registerCursorHoldHandler t r g =>
    intro it hit
    simp only [applyCall, InputManager.registerCursorHoldHandler, List.mem_append,
      List.mem_singleton] at hit
    rcases hit with hold | hnew
    · exact h it hold
    · left
      rw [hnew]
      norm_num

theorem holdsUnfired_applyCalls (calls : List Call) (m : InputManager) (h : HoldsUnfired m) :
    HoldsUnfired (applyCalls m calls) := by
  induction calls generalizing m with
  | nil => exact h
  | cons call rest ih => exact ih (applyCall m call) (holdsUnfired_applyCall m call h)

theorem holdsUnfired_invokeAll (a : Args) (l : List StdFunction) (m : InputManager)
    (tr : List Invocation) (m1 : InputManager) (h : HoldsUnfired m)
    (hrun : invokeAll a l m = some (tr, m1)) : HoldsUnfired m1 := by
  induction l generalizing m tr m1 with
  | nil =>
    simp only [invokeAll, Option.some.injEq, Prod.mk.injEq] at hrun
    rw [← hrun.2]
    exact h
  | cons f rest ih =>
    cases f with
    | movedFrom => simp [invokeAll] at hrun
    | target g =>
      simp only [invokeAll] at hrun
      cases hrest : invokeAll a rest (applyCalls m (g.body a)) with
      | none => simp [hrest] at hrun
      | some r =>
        obtain ⟨tr1, m2⟩ := r
        simp only [hrest, Option.some.injEq, Prod.mk.injEq] at hrun
        rw [← hrun.2]
        exact ih _ _ _ (holdsUnfired_applyCalls _ m h) hrest

theorem holdsUnfired_keyCallback (captured : Bool) (name : Int → Int → Option String)
    (key sc a mods : Int) (m : InputManager) (tr : List Invocation) (m1 : InputManager)
    (h : HoldsUnfired m) (hrun : keyCallback captured name key sc a mods m = some (tr, m1)) :
    HoldsUnfired m1 := by
  unfold keyCallback at hrun
  cases hf : keyFilter captured m.keyStates key a with
  | none => simp [hf] at hrun
  | some d =>
    obtain ⟨go, ks1⟩ := d
    cases go with
    | false =>
      simp only [hf, Option.some.injEq, Prod.mk.injEq] at hrun
      rw [← hrun.2]
      exact h
    | true =>
      simp only [hf] at hrun
      unfold keyDispatch backupContainer at hrun
      simp only at hrun
      have h0 : HoldsUnfired
          { m with keyStates := ks1, keyHandlers := [], utf8KeyHandlers := [] } := h
      cases hk : invokeAll (Args.key sc mods a) m.keyHandlers
          { m with keyStates := ks1, keyHandlers := [], utf8KeyHandlers := [] } with
      | none => simp [hk] at hrun
      | some r1 =>
        obtain ⟨tr1, m2⟩ := r1
        have h2 : HoldsUnfired m2 := holdsUnfired_invokeAll _ _ _ _ _ h0 hk
        simp only [hk] at hrun
        by_cases hempty : m.utf8KeyHandlers.isEmpty = true
        · simp only [hempty, if_true, Option.some.injEq, Prod.mk.injEq] at hrun
          rw [← hrun.2]
          exact h2
        · simp only [hempty, Bool.false_eq_true, if_false] at hrun
          cases hn : name key sc with
          | none =>
            simp only [hn, Option.some.injEq, Prod.mk.injEq] at hrun
            rw [← hrun.2]
            exact h2
          | some utf8key =>
            simp only [hn] at hrun
            cases hu : invokeAll (Args.utf8Key utf8key mods a) m.utf8KeyHandlers m2 with
            | none => simp [hu] at hrun
            | some r2 =>
              obtain ⟨tr2, m3⟩ := r2
              have h3 : HoldsUnfired m3 := holdsUnfired_invokeAll _ _ _ _ _ h2 hu
              simp only [hu, Option.some.injEq, Prod.mk.injEq] at hrun
              rw [← hrun.2]
              exact h3

/-- The loop of a tick on records none of which is both anchored and callable: it
invokes nothing and leaves the state as it is. -/
theorem holdLoop_unfired (x y now : ℚ) (its : List CursorHoldData) (m : InputManager)
    (tr : List Invocation) (its1 : List CursorHoldData) (m1 : InputManager)
    (h : ∀ it ∈ its, it.startTime < 0 ∨ it.handler = StdFunction.movedFrom)
    (hrun : holdLoop x y now its m = some (tr, its1, m1)) :
    tr = [] ∧ m1 = m := by
  induction its generalizing tr its1 m1 with
  | nil =>
    simp only [holdLoop, Option.some.injEq, Prod.mk.injEq] at hrun
    exact ⟨hrun.1.symm, hrun.2.2.symm⟩
  | cons it rest ih =>
    have hrest : ∀ e ∈ rest, e.startTime < 0 ∨ e.handler = StdFunction.movedFrom :=
      fun e he => h e (List.mem_cons_of_mem _ he)
    cases hstep : holdStep x y now it with
    | mk it1 fires =>
      cases fires with
      | false =>
        simp only [holdLoop, hstep] at hrun
        cases hr : holdLoop x y now rest m with
        | none => simp [hr] at hrun
        | some r =>
          obtain ⟨tr1, rest1, m2⟩ := r
          simp only [hr, Option.some.injEq, Prod.mk.injEq] at hrun
          obtain ⟨h1, h2⟩ := ih tr1 rest1 m2 hrest hr
          exact ⟨hrun.1 ▸ h1, hrun.2.2 ▸ h2⟩
      | true =>
        rcases h it (List.mem_cons_self _ _) with hneg | hmoved
        · rw [holdStep_sentinel x y now it hneg] at hstep
          cases hstep
        · simp [holdLoop, hstep, hmoved] at hrun

/-- No tick invokes a hold handler.  The initial state has the property `HoldsUnfired`;
the registrations, the passes of the other callbacks and the ticks keep it; and a
tick on a state that has it invokes nothing: a record is anchored only by a tick,
whose `restoreContainer` leaves its handler moved from. -/
theorem hold_handlers_never_invoked :
    HoldsUnfired InputManager.initial ∧
    (∀ (m : InputManager) (c : Category) (h : Handler),
      HoldsUnfired m → HoldsUnfired (m.registerHandler c h)) ∧
    (∀ (m : InputManager) (t r : ℚ) (h : Handler),
      HoldsUnfired m → HoldsUnfired (m.registerCursorHoldHandler t r h)) ∧
    (∀ (c : Category) (a : Args) (m : InputManager) (tr : List Invocation)
      (m1 : InputManager),
      HoldsUnfired m → dispatch c a m = some (tr, m1) → HoldsUnfired m1) ∧
    (∀ (captured : Bool) (name : Int → Int → Option String) (key sc a mods : Int)
      (m : InputManager) (tr : List Invocation) (m1 : InputManager),
      HoldsUnfired m → keyCallback captured name key sc a mods m = some (tr, m1) →
        HoldsUnfired m1) ∧
    (∀ (captured : Bool) (x y t : ℚ) (m : InputManager) (tr : List Invocation)
      (m1 : InputManager),
      HoldsUnfired m → elapsedTime captured x y t m = some (tr, m1) →
        tr = [] ∧ HoldsUnfired m1) := by
  refine ⟨?_, ?_, ?_, ?_, ?_, ?_⟩
  · intro it hit
    cases hit
  · intro m c h hm
    exact holdsUnfired_setHandlers m c _ hm
  · intro m t r h hm
    exact holdsUnfired_applyCall m (Call.registerCursorHoldHandler t r h) hm
  · intro c a m tr m1 hm hrun
    unfold dispatch backupContainer at hrun
    cases hloop : invokeAll a (m.handlers c) (m.setHandlers c []) with
    | none => simp [hloop] at hrun
    | some r =>
      obtain ⟨tr1, m2⟩ := r
      simp only [hloop, Option.some.injEq, Prod.mk.injEq] at hrun
      rw [← hrun.2]
      exact holdsUnfired_setHandlers _ _ _
        (holdsUnfired_invokeAll a _ _ _ _ (holdsUnfired_setHandlers m c [] hm) hloop)
  · intro captured name key sc a mods m tr m1 hm hrun
    exact holdsUnfired_keyCallback captured name key sc a mods m tr m1 hm hrun
  · intro captured x y t m tr m1 hm hrun
    cases captured with
    | true =>
      simp only [elapsedTime, if_true, Option.some.injEq, Prod.mk.injEq] at hrun
      exact ⟨hrun.1.symm, hrun.2 ▸ hm⟩
    | false =>
      simp only [elapsedTime, backupContainer, Bool.false_eq_true, if_false] at hrun
      cases hloop : holdLoop x y (roundToDouble (t * 1000)) m.cursorHoldHandlers
          { m with cursorHoldHandlers := [] } with
      | none => simp [hloop] at hrun
      | some r =>
        obtain ⟨tr1, its1, m2⟩ := r
        simp only [hloop, Option.some.injEq, Prod.mk.injEq] at hrun
        obtain ⟨h1, _⟩ := holdLoop_unfired x y _ _ _ tr1 its1 m2 hm hloop
        refine ⟨hrun.1 ▸ h1, ?_⟩
        rw [← hrun.2]
        intro it hit
        right
        simp only [restoreContainer_snd] at hit
        obtain ⟨e, _, rfl⟩ := List.mem_map.mp hit
        rfl

/-- C14 (evaluation at the failing input): `registerCursorHoldHandler(200, 5, h)`, then
ticks at `(0, 0)`, time 0 and at `(0, 0)`, time 250 ms.  The first tick anchors the
record and invokes nothing; its `restoreContainer` leaves the record with its
handler moved from.  The second tick is within the radius and past the duration,
so line 131 calls the handler of the record, a moved-from function: `h` is not
invoked. -/
theorem hold_not_fired_at_second_tick :
    elapsedTime false 0 0 0 holdRegistered = some ([], afterFirstTick) ∧
    afterFirstTick.cursorHoldHandlers.map (fun it => it.handler) = [StdFunction.movedFrom] ∧
    (holdStep 0 0 (1 / 4 * 1000) anchoredAtOrigin.moveOut).2 = true ∧
    (elapsedTime false 0 0 (1 / 4) afterFirstTick).isNone = true := by
  refine ⟨?_, rfl, ?_, ?_⟩
  · norm_num [elapsedTime, holdRegistered, InputManager.registerCursorHoldHandler,
      InputManager.initial, backupContainer, holdLoop, holdStep, restoreContainer,
      afterFirstTick, anchoredAtOrigin, CursorHoldData.moveOut, StdFunction.moveOut,
      roundToDouble_zero, roundToDouble_25]
  · norm_num [holdStep, dv2, anchoredAtOrigin, CursorHoldData.moveOut, roundToDouble_zero,
      roundToDouble_250]
  · norm_num [elapsedTime, backupContainer, holdLoop, holdStep, dv2, restoreContainer,
      afterFirstTick, anchoredAtOrigin, CursorHoldData.moveOut, StdFunction.moveOut,
      InputManager.initial, roundToDouble_zero, roundToDouble_250]

/-- A tick on a state in which the record `it` of radius `r` is anchored (`hanch`), at a
position `(x, y)` for which `dv2` exceeds the stored squared radius, and in which
the records that fire hold a target (`hcall`): the tick makes no invocation for `it`
and the record it leaves at the same index has the anchor `(x, y)`, the start time
of the tick, and the radius and duration it had. -/
theorem out_of_radius_reanchors (x y glfwGetTime r : ℚ) (m : InputManager)
    (pre post : List CursorHoldData) (it : CursorHoldData)
    (hlist : m.cursorHoldHandlers = pre ++ it :: post)
    (hr : it.threshold2 = roundToDouble (r * r))
    (hanch : 0 ≤ it.startTime)
    (hfar : roundToDouble (r * r) < dv2 x y it)
    (hcall : FiringCallable x y (roundToDouble (glfwGetTime * 1000)) (pre ++ post)) :
    ∃ m1 it1, elapsedTime false x y glfwGetTime m =
        some (holdInvocations x y (roundToDouble (glfwGetTime * 1000)) pre ++
          holdInvocations x y (roundToDouble (glfwGetTime * 1000)) post, m1) ∧
      m1.cursorHoldHandlers.length = m.cursorHoldHandlers.length ∧
      m1.cursorHoldHandlers[pre.length]? = some it1 ∧
      it1.x = x ∧ it1.y = y ∧ it1.startTime = roundToDouble (glfwGetTime * 1000) ∧
      it1.threshold2 = it.threshold2 ∧ it1.timeToTrigger = it.timeToTrigger := by
  have hstep := holdStep_far x y (roundToDouble (glfwGetTime * 1000)) it hanch (hr ▸ hfar)
  have hall : FiringCallable x y (roundToDouble (glfwGetTime * 1000))
      m.cursorHoldHandlers := by
    intro e he hf
    rw [hlist] at he
    rcases List.mem_append.mp he with hpre | hrest
    · exact hcall e (List.mem_append_left _ hpre) hf
    · rcases List.mem_cons.mp hrest with heq | hpost
      · rw [heq, hstep] at hf
        cases hf
      · exact hcall e (List.mem_append_right _ hpost) hf
  obtain ⟨m1, h1, h2⟩ := elapsedTime_callable x y glfwGetTime m hall
  refine ⟨m1, CursorHoldData.moveOut
    { it with startTime := roundToDouble (glfwGetTime * 1000), x := x, y := y },
    ?_, ?_, ?_, rfl, rfl, rfl, rfl, rfl⟩
  · rw [h1, hlist, holdInvocations_append]
    simp only [holdInvocations, hstep]
  · rw [h2, List.length_map]
  · rw [h2, hlist]
    simp only [List.map_append, List.map_cons, hstep]
    rw [List.getElem?_append_right (by simp)]
    simp

/-- The spec's own example on one registration: radius 5; the tick at `(0, 0)`, time 0
anchors the registration (first part), the tick at `(10, 10)`, time 250 ms invokes
nothing and leaves the anchor at `(10, 10)` with start time 250. -/
theorem out_of_radius_reanchors_witness :
    elapsedTime false 0 0 0 holdRegistered = some ([], afterFirstTick) ∧
    ∃ m1 it1, elapsedTime false 10 10 (1 / 4) afterFirstTick =
        some (holdInvocations 10 10 (roundToDouble (1 / 4 * 1000)) [] ++
          holdInvocations 10 10 (roundToDouble (1 / 4 * 1000)) [], m1) ∧
      m1.cursorHoldHandlers.length = afterFirstTick.cursorHoldHandlers.length ∧
      m1.cursorHoldHandlers[([] : List CursorHoldData).length]? = some it1 ∧
      it1.x = 10 ∧ it1.y = 10 ∧ it1.startTime = roundToDouble (1 / 4 * 1000) ∧
      it1.threshold2 = anchoredAtOrigin.moveOut.threshold2 ∧
      it1.timeToTrigger = anchoredAtOrigin.moveOut.timeToTrigger :=
  ⟨by norm_num [elapsedTime, holdRegistered, InputManager.registerCursorHoldHandler,
      InputManager.initial, backupContainer, holdLoop, holdStep, restoreContainer,
      afterFirstTick, anchoredAtOrigin, CursorHoldData.moveOut, StdFunction.moveOut,
      roundToDouble_zero, roundToDouble_25],
    out_of_radius_reanchors 10 10 (1 / 4) 5 afterFirstTick [] [] anchoredAtOrigin.moveOut rfl
      (by norm_num [anchoredAtOrigin, CursorHoldData.moveOut, roundToDouble_25])
      (by norm_num [anchoredAtOrigin, CursorHoldData.moveOut])
      (by norm_num [dv2, anchoredAtOrigin, CursorHoldData.moveOut, roundToDouble_25,
        roundToDouble_10, roundToDouble_100, roundToDouble_200])
      (by intro e he; cases he)⟩

/-- C15 (evaluation at the failing input): `registerCursorHoldHandler(200, 5, h1)` and
`registerCursorHoldHandler(200, 100, h2)`, then ticks at `(0, 0)`, time 0 and at
`(10, 10)`, time 250 ms.  The first tick anchors both records at the origin and
leaves both handlers moved from.  At the second tick the position is beyond the
radius of the first record (`dv2` is 200, above 25), and the loop body sets its
anchor to `(10, 10)` and its start time to 250 in the local snapshot; the second
record is within its radius and past its duration, so line 131 calls its
moved-from handler.  The tick has no result: `restoreContainer` is not reached and
no record with the new anchor is left. -/
theorem reanchoring_lost_when_other_record_fires :
    elapsedTime false 0 0 0 twoHoldsRegistered = some ([], twoHoldsAfterFirstTick) ∧
    dv2 10 10 anchoredAtOrigin.moveOut = 200 ∧
    holdStep 10 10 (1 / 4 * 1000) anchoredAtOrigin.moveOut =
      ({ anchoredAtOrigin.moveOut with startTime := 250, x := 10, y := 10 }, false) ∧
    (holdStep 10 10 (1 / 4 * 1000) wideAnchoredAtOrigin.moveOut).2 = true ∧
    (elapsedTime false 10 10 (1 / 4) twoHoldsAfterFirstTick).isNone = true := by
  refine ⟨?_, ?_, ?_, ?_, ?_⟩
  · norm_num [elapsedTime, twoHoldsRegistered, holdRegistered,
      InputManager.registerCursorHoldHandler, InputManager.initial, backupContainer, holdLoop,
      holdStep, restoreContainer, twoHoldsAfterFirstTick, anchoredAtOrigin,
      wideAnchoredAtOrigin, CursorHoldData.moveOut, StdFunction.moveOut, roundToDouble_zero,
      roundToDouble_25, roundToDouble_10000]
  · norm_num [dv2, anchoredAtOrigin, CursorHoldData.moveOut, roundToDouble_10,
      roundToDouble_100, roundToDouble_200]
  · norm_num [holdStep, dv2, anchoredAtOrigin, CursorHoldData.moveOut, roundToDouble_10,
      roundToDouble_100, roundToDouble_200]
  · norm_num [holdStep, dv2, wideAnchoredAtOrigin, CursorHoldData.moveOut, roundToDouble_10,
      roundToDouble_100, roundToDouble_200, roundToDouble_250]
  · norm_num [elapsedTime, backupContainer, holdLoop, holdStep, dv2, restoreContainer,
      twoHoldsAfterFirstTick, anchoredAtOrigin, wideAnchoredAtOrigin, CursorHoldData.moveOut,
      StdFunction.moveOut, InputManager.initial, roundToDouble_10, roundToDouble_100,
      roundToDouble_200, roundToDouble_250]

/-! ## Dispatch started from inside a handler -/

theorem handlers_setHandlers_ne (m : InputManager) (c1 c : Category) (l : List StdFunction)
    (hne : c1 ≠ c) : (m.setHandlers c1 l).handlers c = m.handlers c := by
  cases c1 <;> cases c <;> first | rfl | exact absurd rfl hne

theorem handlers_applyCall (m : InputManager) (c : Category) (call : Call) :
    (applyCall m call).handlers c =
      m.handlers c ++ (registeredFor c [call]).map StdFunction.target := by
  cases call with
  | register c1 h =>
    by_cases hc : c1 = c
    · subst hc
      simp only [applyCall, InputManager.registerHandler, handlers_setHandlers, registeredFor,
        if_true, List.map_cons, List.map_nil]
    · simp only [applyCall, InputManager.registerHandler, handlers_setHandlers_ne _ _ _ _ hc,
        registeredFor, hc, if_false, List.map_nil, List.append_nil]
  | registerCursorHoldHandler t r h =>
    cases c <;> simp [applyCall, InputManager.registerCursorHoldHandler, registeredFor,
      InputManager.handlers]

theorem registeredFor_cons (c : Category) (call : Call) (rest : List Call) :
    registeredFor c (call :: rest) = registeredFor c [call] ++ registeredFor c rest := by
  cases call with
  | register c1 h =>
    by_cases hc : c1 = c <;> simp [registeredFor, hc]
  | registerCursorHoldHandler t r h => simp [registeredFor]

/-- The vector of a category after a sequence of calls: the registrations for the
category are appended, in order. -/
theorem handlers_applyCalls (c : Category) (calls : List Call) (m : InputManager) :
    (applyCalls m calls).handlers c =
      m.handlers c ++ (registeredFor c calls).map StdFunction.target := by
  induction calls generalizing m with
  | nil => simp [applyCalls, registeredFor]
  | cons call rest ih =>
    show (applyCalls (applyCall m call) rest).handlers c = _
    rw [ih, handlers_applyCall, registeredFor_cons c call rest, List.map_append,
      List.append_assoc]

theorem setHandlers_handlers (m : InputManager) (c : Category) :
    m.setHandlers c (m.handlers c) = m := by
  cases c <;> rfl

/-- C20 (as amended): a dispatch of category `c` started from inside a pass of `c`, at a
moment when the handlers of the pass have made the registration calls `calls` and
no dispatch has been started inside the pass before.  The vector it detaches holds
the handlers registered for `c` since the outer pass began and no function of the
vector `m.handlers c` the outer pass runs over; it invokes exactly the registered
handlers, once each in registration order; it invokes no handler exactly when none
was registered, and then leaves the state as it is. -/
theorem nested_dispatch_runs_registered (c : Category) (a : Args) (m : InputManager)
    (calls : List Call) :
    (midPass c m calls).handlers c = (registeredFor c calls).map StdFunction.target ∧
    (∃ m1, dispatch c a (midPass c m calls) =
      some ((registeredFor c calls).map (fun h => { handler := h, args := a }), m1)) ∧
    (∀ tr m1, dispatch c a (midPass c m calls) = some (tr, m1) →
      (tr = [] ↔ registeredFor c calls = [])) ∧
    (registeredFor c calls = [] →
      dispatch c a (midPass c m calls) = some ([], midPass c m calls)) := by
  have hlist : (midPass c m calls).handlers c =
      (registeredFor c calls).map StdFunction.target := by
    simp only [midPass, backupContainer, handlers_applyCalls, handlers_setHandlers,
      List.nil_append]
  obtain ⟨m1, h1, _⟩ := dispatch_targets c a (midPass c m calls) (registeredFor c calls) hlist
  refine ⟨hlist, ⟨m1, h1⟩, ?_, ?_⟩
  · intro tr m2 h2
    rw [h1] at h2
    simp only [Option.some.injEq, Prod.mk.injEq] at h2
    rw [← h2.1]
    exact List.map_eq_nil_iff
  intro hnone
  have hempty : (midPass c m calls).handlers c = [] := by
    rw [hlist, hnone]
    rfl
  have hself : (midPass c m calls).setHandlers c [] = midPass c m calls := by
    rw [← hempty]
    exact setHandlers_handlers _ c
  simp only [dispatch, backupContainer, hempty, invokeAll, hself, restoreContainer,
    List.isEmpty_nil, if_true]

/-- Counterexample to C20: the window-resize vector holds `registeringHandler`, which
registers `quietHandler` for the same category; a framebuffer-size dispatch started
after that registration, while the outer pass is still running, invokes
`quietHandler` (identity 1): it is not a no-op. -/
theorem nested_dispatch_invokes_registered :
    (dispatch Category.WindowResize (Args.windowResize 640 480)
        (midPass Category.WindowResize
          (oneHandler Category.WindowResize (registeringHandler Category.WindowResize))
          ((registeringHandler Category.WindowResize).body (Args.windowResize 640 480)))).map
      (fun r => r.1.map (fun inv => inv.handler.id)) = some [1] ∧
    ¬ (dispatch Category.WindowResize (Args.windowResize 640 480)
        (midPass Category.WindowResize
          (oneHandler Category.WindowResize (registeringHandler Category.WindowResize))
          ((registeringHandler Category.WindowResize).body (Args.windowResize 640 480)))).map
      (fun r => r.1.length) = some 0 := by
  constructor
  · rfl
  · intro h
    have h2 : (some 1 : Option Nat) = some 0 := h
    cases h2

end sgui

namespace glfwim

open sgui

/-! ## Path-drop wrappers -/

theorem find_last_of_absent (c : Char) (s : List Char) (h : c ∉ s) : find_last_of c s = none := by
  induction s with
  | nil => rfl
  | cons x rest ih =>
    have hx : x ≠ c := fun heq => h (heq ▸ List.mem_cons_self _ _)
    have hrest : c ∉ rest := fun hm => h (List.mem_cons_of_mem _ hm)
    simp only [find_last_of, ih hrest, hx, if_false]

theorem find_last_of_last (c : Char) (pre e : List Char) (h : c ∉ e) :
    find_last_of c (pre ++ c :: e) = some pre.length := by
  induction pre with
  | nil => simp only [List.nil_append, find_last_of, find_last_of_absent c e h, if_true,
      List.length_nil]
  | cons x rest ih =>
    simp only [List.cons_append, find_last_of, List.append_eq, ih, List.length_cons]

theorem extension_no_dot (it : String) (h : '.' ∉ it.data) : extension it = "" := by
  simp only [extension, find_last_of_absent '.' it.data h]

theorem extension_after_last_dot (pre e : List Char) (h : '.' ∉ e) :
    extension (String.mk (pre ++ '.' :: e)) = String.mk e := by
  simp only [extension, find_last_of_last '.' pre e h]
  congr 1
  simp

theorem batchInner_eq (pps : List String) (it ext : String) (f : List String) :
    batchInner pps it ext f = if ext ∈ f then pps ++ [it] else pps := by
  induction f with
  | nil => simp [batchInner]
  | cons fExt rest ih =>
    by_cases hx : ext = fExt
    · simp [batchInner, hx]
    · simp [batchInner, hx, ih]

theorem perPathInner_eq (it ext : String) (f : List String) :
    perPathInner it ext f = if ext ∈ f then [it] else [] := by
  induction f with
  | nil => simp [perPathInner]
  | cons fExt rest ih =>
    by_cases hx : ext = fExt
    · simp [perPathInner, hx]
    · simp [perPathInner, hx, ih]

theorem batchLoop_nonempty (f : List String) (hf : f ≠ []) (paths pps : List String) :
    batchLoop f pps paths = pps ++ paths.filter (fun it => decide (extension it ∈ f)) := by
  have hemp : f.isEmpty = false := by
    cases f with
    | nil => exact absurd rfl hf
    | cons a rest => rfl
  induction paths generalizing pps with
  | nil => simp [batchLoop]
  | cons it rest ih =>
    simp only [batchLoop, hemp, Bool.false_eq_true, if_false, batchInner_eq, ih]
    by_cases hm : extension it ∈ f
    · simp [hm, List.filter_cons]
    · simp [hm, List.filter_cons]

theorem batchLoop_empty (paths pps : List String) : batchLoop [] pps paths = pps ++ paths := by
  induction paths generalizing pps with
  | nil => simp [batchLoop]
  | cons it rest ih => simp [batchLoop, ih]

theorem perPathCalls_nonempty (f : List String) (hf : f ≠ []) (paths : List String) :
    perPathCalls f paths = paths.filter (fun it => decide (extension it ∈ f)) := by
  have hemp : f.isEmpty = false := by
    cases f with
    | nil => exact absurd rfl hf
    | cons a rest => rfl
  induction paths with
  | nil => rfl
  | cons it rest ih =>
    simp only [perPathCalls, hemp, Bool.false_eq_true, if_false, perPathInner_eq, ih]
    by_cases hm : extension it ∈ f
    · simp [hm, List.filter_cons]
    · simp [hm, List.filter_cons]

theorem perPathCalls_empty (paths : List String) : perPathCalls [] paths = paths := by
  induction paths with
  | nil => rfl
  | cons it rest ih => simp [perPathCalls, ih]

theorem accumulateFilters_eq (filters heads : List String) :
    accumulateFilters filters heads = filters ++ heads := by
  induction heads generalizing filters with
  | nil => simp [accumulateFilters]
  | cons head tail ih => simp [accumulateFilters, ih]

/-- C17: the batch wrapper with the captured filters `f`, called with the dropped
`paths`, calls the handler with, for non-empty `f`, the paths in their order whose
extension is equal to some filter, and for empty `f` with all the paths.  The
extension is empty when the path has no `'.'` and is what follows the last `'.'`
otherwise; the filters are the leading string arguments in argument order. -/
theorem batch_receives_matching_paths (f paths : List String) :
    (f ≠ [] → batchCalls f paths = [paths.filter (fun it => decide (extension it ∈ f))]) ∧
    batchCalls [] paths = [paths] ∧
    (∀ it : String, '.' ∉ it.data → extension it = "") ∧
    (∀ pre e : List Char, '.' ∉ e → extension (String.mk (pre ++ '.' :: e)) = String.mk e) ∧
    (∀ heads : List String, accumulateFilters [] heads = heads) ∧
    batchCalls (accumulateFilters [] ["png", "jpg"]) ["a.png", "b.txt", "c.jpg"] =
      [["a.png", "c.jpg"]] ∧
    batchCalls ["png"] ["a.PNG", "b.png"] = [["b.png"]] := by
  refine ⟨?_, ?_, extension_no_dot, extension_after_last_dot, ?_, by decide, by decide⟩
  · intro hf
    simp only [batchCalls, batchLoop_nonempty f hf, List.nil_append]
  · simp only [batchCalls, batchLoop_empty, List.nil_append]
  · intro heads
    simp only [accumulateFilters_eq, List.nil_append]

/-- C18: for every filter list `f`, repetitions included, and all dropped `paths`, the
calls the per-path wrapper makes are, in order, the elements of the vector the
batch wrapper hands over: one call for each delivered path.  A filter listed twice
delivers a matching path once (`break`). -/
theorem per_path_matches_batch (f paths : List String) :
    batchCalls f paths = [perPathCalls f paths] ∧
    (f ≠ [] → perPathCalls f paths = paths.filter (fun it => decide (extension it ∈ f))) ∧
    perPathCalls [] paths = paths ∧
    perPathCalls ["png", "png"] ["a.png", "b.txt"] = ["a.png"] := by
  refine ⟨?_, fun hf => perPathCalls_nonempty f hf paths, perPathCalls_empty paths, by decide⟩
  cases f with
  | nil => simp only [batchCalls, batchLoop_empty, perPathCalls_empty, List.nil_append]
  | cons a rest =>
    simp only [batchCalls, batchLoop_nonempty (a :: rest) (List.cons_ne_nil _ _),
      perPathCalls_nonempty (a :: rest) (List.cons_ne_nil _ _), List.nil_append]

/-! ## Key aliases -/

/-- C19, counterexample: `registerUtf8KeyHandler` is called with a pointer to a buffer
that holds "a", and the buffer holds "b" when an event is dispatched.  One handler
is registered in the UTF-8 vector and none in the key vector; for an event whose
key name is "a", the string passed at registration, the wrapper does not call the
callback, and for an event whose key name is "b" it does. -/
theorem rewritten_buffer_changes_filter :
    ((registerUtf8KeyHandler x11ScanCodes InputManager.initial 7 rewrittenBuffer
        (fun _ _ => [Call.register Category.Key quietHandler])).utf8KeyHandlers.length,
     (registerUtf8KeyHandler x11ScanCodes InputManager.initial 7 rewrittenBuffer
        (fun _ _ => [Call.register Category.Key quietHandler])).keyHandlers.length) = (1, 0) ∧
    rewrittenBuffer.atRegistration = "a" ∧
    utf8Call rewrittenBuffer (Args.utf8Key "a" 0 1) = none ∧
    ((wrapHandler 7 (utf8Call rewrittenBuffer)
        (fun _ _ => [Call.register Category.Key quietHandler])).body
      (Args.utf8Key "a" 0 1)).length = 0 ∧
    utf8Call rewrittenBuffer (Args.utf8Key "b" 0 1) = some (0, 1) ∧
    ((wrapHandler 7 (utf8Call rewrittenBuffer)
        (fun _ _ => [Call.register Category.Key quietHandler])).body
      (Args.utf8Key "b" 0 1)).length = 1 := by
  refine ⟨?_, rfl, ?_, ?_, ?_, ?_⟩ <;> decide

/-- C19, amended: `registerUtf8KeyHandler` called with a pointer to one of the four
tokens appends one handler to the key vector, a wrapper bound to the scancode of
space, enter, right arrow or left arrow, and leaves the UTF-8 vector as it was;
with a pointer to any other string it appends one handler to the UTF-8 vector and
leaves the key vector as it was.  The scancode wrapper calls the callback exactly for
key events with that scancode.  The UTF-8 wrapper calls the callback exactly for
events whose key name is equal to the string the pointer designates when the
event is dispatched, which is the string passed at registration when the buffer is
unchanged.  Each wrapper passes on the modifiers and the action of the event. -/
theorem alias_tokens_register_key_handlers (codes : ScanCodes) (m : InputManager) (id : Nat)
    (utf8code : CharPointer) (h : Int → Int → List Call) :
    (utf8code.atRegistration = " " →
      (registerUtf8KeyHandler codes m id utf8code h).keyHandlers = m.keyHandlers ++
        [StdFunction.target (wrapHandler id (scancodeCall codes.space) h)] ∧
      (registerUtf8KeyHandler codes m id utf8code h).utf8KeyHandlers = m.utf8KeyHandlers) ∧
    (utf8code.atRegistration = "\n" →
      (registerUtf8KeyHandler codes m id utf8code h).keyHandlers = m.keyHandlers ++
        [StdFunction.target (wrapHandler id (scancodeCall codes.enter) h)] ∧
      (registerUtf8KeyHandler codes m id utf8code h).utf8KeyHandlers = m.utf8KeyHandlers) ∧
    (utf8code.atRegistration = "->" →
      (registerUtf8KeyHandler codes m id utf8code h).keyHandlers = m.keyHandlers ++
        [StdFunction.target (wrapHandler id (scancodeCall codes.rightArrow) h)] ∧
      (registerUtf8KeyHandler codes m id utf8code h).utf8KeyHandlers = m.utf8KeyHandlers) ∧
    (utf8code.atRegistration = "<-" →
      (registerUtf8KeyHandler codes m id utf8code h).keyHandlers = m.keyHandlers ++
        [StdFunction.target (wrapHandler id (scancodeCall codes.leftArrow) h)] ∧
      (registerUtf8KeyHandler codes m id utf8code h).utf8KeyHandlers = m.utf8KeyHandlers) ∧
    (utf8code.atRegistration ≠ " " → utf8code.atRegistration ≠ "\n" →
      utf8code.atRegistration ≠ "->" → utf8code.atRegistration ≠ "<-" →
      (registerUtf8KeyHandler codes m id utf8code h).utf8KeyHandlers = m.utf8KeyHandlers ++
        [StdFunction.target (wrapHandler id (utf8Call utf8code) h)] ∧
      (registerUtf8KeyHandler codes m id utf8code h).keyHandlers = m.keyHandlers) ∧
    (∀ (name : String) (mods action : Int),
      (name = utf8code.atDispatch →
        utf8Call utf8code (Args.utf8Key name mods action) = some (mods, action) ∧
        (wrapHandler id (utf8Call utf8code) h).body (Args.utf8Key name mods action) =
          h mods action) ∧
      (name ≠ utf8code.atDispatch →
        utf8Call utf8code (Args.utf8Key name mods action) = none ∧
        (wrapHandler id (utf8Call utf8code) h).body (Args.utf8Key name mods action) = [])) ∧
    (utf8code.atDispatch = utf8code.atRegistration →
      ∀ (name : String) (mods action : Int),
        (utf8Call utf8code (Args.utf8Key name mods action)).isSome = true ↔
          name = utf8code.atRegistration) ∧
    (∀ s scancode mods action : Int,
      (scancode = s →
        scancodeCall s (Args.key scancode mods action) = some (mods, action) ∧
        (wrapHandler id (scancodeCall s) h).body (Args.key scancode mods action) =
          h mods action) ∧
      (scancode ≠ s →
        scancodeCall s (Args.key scancode mods action) = none ∧
        (wrapHandler id (scancodeCall s) h).body (Args.key scancode mods action) = [])) := by
  refine ⟨?_, ?_, ?_, ?_, ?_, ?_, ?_, ?_⟩
  · intro hu
    simp only [registerUtf8KeyHandler, hu, if_true]
    exact ⟨rfl, rfl⟩
  · intro hu
    have h1 : ¬ ("\n" = " ") := by decide
    simp only [registerUtf8KeyHandler, hu, h1, if_true, if_false]
    exact ⟨rfl, rfl⟩
  · intro hu
    have h1 : ¬ ("->" = " ") := by decide
    have h2 : ¬ ("->" = "\n") := by decide
    simp only [registerUtf8KeyHandler, hu, h1, h2, if_true, if_false]
    exact ⟨rfl, rfl⟩
  · intro hu
    have h1 : ¬ ("<-" = " ") := by decide
    have h2 : ¬ ("<-" = "\n") := by decide
    have h3 : ¬ ("<-" = "->") := by decide
    simp only [registerUtf8KeyHandler, hu, h1, h2, h3, if_true, if_false]
    exact ⟨rfl, rfl⟩
  · intro h1 h2 h3 h4
    simp only [registerUtf8KeyHandler, h1, h2, h3, h4, if_false]
    exact ⟨rfl, rfl⟩
  · intro name mods action
    constructor
    · intro hn
      subst hn
      simp only [utf8Call, wrapHandler, Handler.body, if_true, and_self]
    · intro hn
      have hn2 : ¬ utf8code.atDispatch = name := fun he => hn he.symm
      simp only [utf8Call, wrapHandler, Handler.body, hn2, if_false, and_self]
  · intro hsame name mods action
    by_cases hn : utf8code.atDispatch = name
    · simp only [utf8Call, hn, if_true, Option.isSome_some, true_iff]
      rw [← hsame, hn]
    · simp only [utf8Call, hn, if_false, Option.isSome_none, Bool.false_eq_true, false_iff]
      intro he
      exact hn (by rw [hsame, he])
  · intro s scancode mods action
    constructor
    · intro hs
      simp only [scancodeCall, wrapHandler, Handler.body, hs, if_true, and_self]
    · intro hs
      simp only [scancodeCall, wrapHandler, Handler.body, hs, if_false, and_self]

end glfwim

namespace sgui

/-! ## Key events: UTF-8 registrations and repeats -/

/-- A key event that reaches the dispatch loops (`hf`) while every function of the two
vectors holds a target, as they do after registrations and before the first
dispatched key event; the vectors hold the handlers `hs` and `us`.  The
invocations are those of all key handlers
followed by invocations of UTF-8 handlers of the snapshot `us` only.  A UTF-8 handler
`g` that a key handler registers during the event, and that was not in the UTF-8
vector before, is not invoked in the event; with an empty UTF-8 vector no UTF-8
handler is invoked at all. -/
theorem utf8_registered_during_event_not_invoked (c : Bool)
    (name : Int → Int → Option String) (key sc a mods : Int) (m : InputManager)
    (ks1 : List Bool) (hs us : List Handler) (g : Handler)
    (hf : keyFilter c m.keyStates key a = some (true, ks1))
    (hk : m.keyHandlers = hs.map StdFunction.target)
    (hu : m.utf8KeyHandlers = us.map StdFunction.target)
    (_hreg : Call.register Category.Utf8Key g ∈
      hs.flatMap (fun h => h.body (Args.key sc mods a)))
    (hnew : g ∉ us) :
    ∃ m1 tr2, keyCallback c name key sc a mods m =
        some (hs.map (fun h => { handler := h, args := Args.key sc mods a }) ++ tr2, m1) ∧
      (∀ inv ∈ tr2, inv.handler ∈ us ∧ ∃ utf8key, inv.args = Args.utf8Key utf8key mods a) ∧
      (∀ inv ∈ tr2, inv.handler ≠ g) ∧
      (us = [] → tr2 = []) := by
  obtain ⟨m1, h1, _⟩ := keyCallback_dispatches c name key sc a mods m ks1 hs us hf hk hu
  have hsub : ∀ inv ∈ (match name key sc with
      | none => ([] : List Invocation)
      | some utf8key => us.map (fun h => { handler := h, args := Args.utf8Key utf8key mods a })),
      inv.handler ∈ us ∧ ∃ utf8key, inv.args = Args.utf8Key utf8key mods a := by
    intro inv hinv
    cases hn : name key sc with
    | none =>
      rw [hn] at hinv
      cases hinv
    | some utf8key =>
      rw [hn] at hinv
      obtain ⟨h, hh, rfl⟩ := List.mem_map.mp hinv
      exact ⟨hh, utf8key, rfl⟩
  refine ⟨m1, _, h1, hsub, ?_, ?_⟩
  · intro inv hinv heq
    exact hnew (heq ▸ (hsub inv hinv).1)
  · intro hnil
    subst hnil
    cases name key sc <;> rfl

set_option maxRecDepth 4000 in
/-- Example of a first key event: the only key handler registers `quietHandler` as UTF-8
handler during a press of key 65; the UTF-8 vector is empty when the event begins
and the key name resolves. -/
theorem utf8_registered_during_event_not_invoked_witness :
    ∃ m1 tr2, keyCallback false nameA 65 38 GLFW_PRESS 0
        (oneHandler Category.Key (registeringHandler Category.Utf8Key)) =
        some ([registeringHandler Category.Utf8Key].map
          (fun h => { handler := h, args := Args.key 38 0 GLFW_PRESS }) ++ tr2, m1) ∧
      (∀ inv ∈ tr2, inv.handler ∈ ([] : List Handler) ∧
        ∃ utf8key, inv.args = Args.utf8Key utf8key 0 GLFW_PRESS) ∧
      (∀ inv ∈ tr2, inv.handler ≠ quietHandler) ∧
      (([] : List Handler) = [] → tr2 = []) :=
  utf8_registered_during_event_not_invoked false nameA 65 38 GLFW_PRESS 0
    (oneHandler Category.Key (registeringHandler Category.Utf8Key))
    (InputManager.initial.keyStates.set 64 true) [registeringHandler Category.Utf8Key] []
    quietHandler rfl rfl rfl (by simp [registeringHandler, Handler.body]) (by simp)

/-- Lines 14-20 on a repeat, for every key code: when they have a result the
key-state is unchanged, and with the keyboard captured the callback returns early. -/
theorem keyFilter_repeat (c : Bool) (ks ks1 : List Bool) (key : Int) (d : Bool)
    (h : keyFilter c ks key GLFW_REPEAT = some (d, ks1)) :
    ks1 = ks ∧ (c = true → d = false) := by
  rcases keyFilter_cases c ks ks1 key GLFW_REPEAT d h with
    ⟨hd, hks⟩ | ⟨_, hc, hks, _⟩ | ⟨_, _, s, _, hcase⟩
  · exact ⟨hks, fun _ => hd⟩
  · exact ⟨hks, fun hct => by rw [hc] at hct; cases hct⟩
  · rcases hcase with ⟨hp, _, _⟩ | ⟨hr, _, _⟩
    · exact absurd hp (by decide)
    · exact absurd hr (by decide)

/-- A repeat of a key `K` in the valid range, whatever its recorded state `b`, while
every function of the two vectors holds a target (as before the first dispatched
key event): with the keyboard not captured the callback reaches its loops, every
key handler is invoked and the key-state is unchanged; with the keyboard captured
the callback
returns early, nothing is invoked and the whole state is unchanged.  Last part,
for every key code: a repeat that has a result leaves the key-state unchanged and
is not dispatched while the keyboard is captured. -/
theorem repeat_keeps_key_state (K : Int) (b : Bool) (m : InputManager) (hs us : List Handler)
    (name : Int → Int → Option String) (sc mods : Int)
    (hstate : keyStateAt m.keyStates (K - 1) = some b)
    (hk : m.keyHandlers = hs.map StdFunction.target)
    (hu : m.utf8KeyHandlers = us.map StdFunction.target) :
    (∃ m1, keyCallback false name K sc GLFW_REPEAT mods m =
        some (keyInvocations hs us (name K sc) sc mods GLFW_REPEAT, m1) ∧
      m1.keyStates = m.keyStates) ∧
    keyCallback true name K sc GLFW_REPEAT mods m = some ([], m) ∧
    (∀ (c : Bool) (ks ks1 : List Bool) (key : Int) (d : Bool),
      keyFilter c ks key GLFW_REPEAT = some (d, ks1) → ks1 = ks ∧ (c = true → d = false)) := by
  have hkey : K ≥ 1 := by
    have := (keyStateAt_some_range m.keyStates (K - 1) b hstate).1
    omega
  have hf1 : keyFilter false m.keyStates K GLFW_REPEAT = some (true, m.keyStates) := by
    unfold keyFilter
    simp only [hstate, hkey, if_true]
    cases b <;> rfl
  have hf2 : keyFilter true m.keyStates K GLFW_REPEAT = some (false, m.keyStates) := by
    unfold keyFilter
    simp only [hstate, if_true]
    cases b <;> rfl
  refine ⟨?_, ?_, ?_⟩
  · exact keyCallback_dispatches false name K sc GLFW_REPEAT mods m _ hs us hf1 hk hu
  · exact keyCallback_returns_early true name K sc GLFW_REPEAT mods m _ hf2
  · intro c ks ks1 key d h
    exact keyFilter_repeat c ks ks1 key d h

set_option maxRecDepth 4000 in
/-- Example: a repeat of key 65, recorded as not pressed, as first key event with one key
handler registered. -/
theorem repeat_keeps_key_state_witness :
    keyStateAt (oneHandler Category.Key quietHandler).keyStates (65 - 1) = some false ∧
    (∃ m1, keyCallback false nameA 65 38 GLFW_REPEAT 0 (oneHandler Category.Key quietHandler) =
        some (keyInvocations [quietHandler] [] (nameA 65 38) 38 0 GLFW_REPEAT, m1) ∧
      m1.keyStates = (oneHandler Category.Key quietHandler).keyStates) ∧
    keyCallback true nameA 65 38 GLFW_REPEAT 0 (oneHandler Category.Key quietHandler) =
      some ([], oneHandler Category.Key quietHandler) :=
  ⟨rfl, (repeat_keeps_key_state 65 false (oneHandler Category.Key quietHandler) [quietHandler] []
      nameA 38 0 rfl rfl rfl).1,
    (repeat_keeps_key_state 65 false (oneHandler Category.Key quietHandler) [quietHandler] []
      nameA 38 0 rfl rfl rfl).2.1⟩

set_option maxRecDepth 4000 in
/-- C23 (evaluation at the failing input): `quietHandler` is the only key handler and
key 65 is pressed, which leaves one moved-from function in the key vector; then
`registeringHandler`, a key handler that registers a UTF-8 handler when it runs, is
registered and key 66 is pressed, the keyboard not captured, the UTF-8 vector empty.
When the second event begins the key vector holds the moved-from function and
`registeringHandler`.  The key loop calls the moved-from function first and has
no result: the key handler `registeringHandler` is not invoked at all. -/
theorem key_handler_not_invoked_in_later_event :
    (keyCallback false nameA 65 38 GLFW_PRESS 0 (oneHandler Category.Key quietHandler)).map
      (fun r => (r.1.map (fun inv => inv.handler.id),
        (r.2.registerHandler Category.Key (registeringHandler Category.Utf8Key)).keyHandlers,
        (r.2.registerHandler Category.Key
          (registeringHandler Category.Utf8Key)).utf8KeyHandlers.length)) =
      some ([1], [StdFunction.movedFrom,
        StdFunction.target (registeringHandler Category.Utf8Key)], 0) ∧
    ((keyCallback false nameA 65 38 GLFW_PRESS 0 (oneHandler Category.Key quietHandler)).bind
      (fun r => keyFilter false r.2.keyStates 66 GLFW_PRESS)).map (fun d => d.1) =
      some true ∧
    ((keyCallback false nameA 65 38 GLFW_PRESS 0 (oneHandler Category.Key quietHandler)).bind
      (fun r => keyCallback false nameA 66 39 GLFW_PRESS 0
        (r.2.registerHandler Category.Key (registeringHandler Category.Utf8Key)))).isNone =
      true :=
  ⟨rfl, rfl, rfl⟩

set_option maxRecDepth 4000 in
/-- C24 (evaluation at the failing input): `quietHandler` is the only key handler; key
65 is pressed and then repeats, the keyboard not captured.  The press invokes the
handler and leaves one moved-from function in the key vector.  The repeat passes
lines 14-20 with the key-state unchanged and reaches the loop, which calls the
moved-from function: the repeat is delivered to no key handler. -/
theorem repeat_after_press_not_delivered :
    (keyCallback false nameA 65 38 GLFW_PRESS 0 (oneHandler Category.Key quietHandler)).map
      (fun r => (r.1.map (fun inv => inv.handler.id), r.2.keyHandlers,
        keyStateAt r.2.keyStates (65 - 1))) =
      some ([1], [StdFunction.movedFrom], some true) ∧
    ((keyCallback false nameA 65 38 GLFW_PRESS 0 (oneHandler Category.Key quietHandler)).bind
      (fun r => (keyFilter false r.2.keyStates 65 GLFW_REPEAT).map
        (fun d => (d.1, decide (d.2 = r.2.keyStates))))) = some (true, true) ∧
    ((keyCallback false nameA 65 38 GLFW_PRESS 0 (oneHandler Category.Key quietHandler)).bind
      (fun r => keyCallback false nameA 65 38 GLFW_REPEAT 0 r.2)).isNone = true :=
  ⟨rfl, rfl, rfl⟩

end sgui

namespace glfwim

open sgui

/-! ## Enabled flag and dispatch passes -/

/-- C22: the batch wrapper calls its handler once for every drop, whatever the filters
and the paths.  For a drop without paths, and for a drop of which no path has an
extension in a non-empty filter list, that one call receives the empty vector and
the per-path wrapper makes no call. -/
theorem batch_invoked_once_per_drop (f paths : List String) :
    (batchCalls f paths).length = 1 ∧
    batchCalls f [] = [[]] ∧
    perPathCalls f [] = [] ∧
    (f ≠ [] → (∀ it ∈ paths, extension it ∉ f) →
      batchCalls f paths = [[]] ∧ perPathCalls f paths = []) ∧
    batchCalls ["png"] ["a.txt", "b"] = [[]] ∧
    perPathCalls ["png"] ["a.txt", "b"] = [] := by
  refine ⟨rfl, rfl, rfl, ?_, by decide, by decide⟩
  intro hf hno
  have hfilter : paths.filter (fun it => decide (extension it ∈ f)) = [] := by
    rw [List.filter_eq_nil_iff]
    intro it hit
    simpa using hno it hit
  constructor
  · simp only [batchCalls, batchLoop_nonempty f hf, hfilter, List.append_nil]
  · simp only [perPathCalls_nonempty f hf, hfilter]

/-- C26: the extension of a path without `'.'` and of a path that ends in `'.'` is
empty; under a non-empty filter list a path with the empty extension is delivered
when the list contains the empty string and is not delivered otherwise, by both
wrappers.  The extension of "dir.v2/readme" is "v2/readme", what follows the last
`'.'` of the whole string, and a non-empty filter list whose filters contain no
`'/'` does not deliver that path. -/
theorem extension_of_whole_path (f : List String) (it : String) (pre : List Char) :
    ('.' ∉ it.data → extension it = "") ∧
    extension (String.mk (pre ++ ['.'])) = "" ∧
    (f ≠ [] → extension it = "" →
      ("" ∈ f → perPathCalls f [it] = [it] ∧ batchCalls f [it] = [[it]]) ∧
      ("" ∉ f → perPathCalls f [it] = [] ∧ batchCalls f [it] = [[]])) ∧
    extension "dir.v2/readme" = "v2/readme" ∧
    (f ≠ [] → (∀ fExt ∈ f, '/' ∉ fExt.data) →
      perPathCalls f ["dir.v2/readme"] = [] ∧ batchCalls f ["dir.v2/readme"] = [[]]) := by
  refine ⟨extension_no_dot it, ?_, ?_, by decide, ?_⟩
  · exact extension_after_last_dot pre [] (List.not_mem_nil _)
  · intro hf hext
    constructor
    · intro hin
      simp [batchCalls, batchLoop_nonempty f hf, perPathCalls_nonempty f hf, List.filter_cons,
        hext, hin]
    · intro hout
      simp [batchCalls, batchLoop_nonempty f hf, perPathCalls_nonempty f hf, List.filter_cons,
        hext, hout]
  · intro hf hfree
    have hext : extension "dir.v2/readme" = "v2/readme" := by decide
    have hout : "v2/readme" ∉ f := by
      intro hin
      exact hfree _ hin (by decide)
    simp [batchCalls, batchLoop_nonempty f hf, perPathCalls_nonempty f hf, List.filter_cons,
      hext, hout]

/-! ## Key handlers with modifier and action -/

end glfwim
